import Mathlib

/-!
Verification of the parallel task-generation and deterministic-aggregation
pipeline of the excel-projectplanner repository.

The Python source (src/nodes/aggregator.py, src/nodes/workers.py,
src/nodes/orchestrator.py, src/nodes/prompt.py) is shallowly embedded below:

* task dictionaries become the `Task` structure whose fields are `Option`s
  (`none` models an absent key);
* calendar dates (`datetime`) become `Int` day numbers counted from
  1970-01-01, so that `timedelta(days = k)` is `+ k` and `weekday()` is
  `(d + 3) % 7` (1970-01-01 was a Thursday, Python counts Monday as 0);
  `strftime "%Y-%m-%d"` / `strptime` round-trip is the identity on such
  day numbers and is left implicit;
* Python's in-place mutation of the task dictionaries that are shared
  between `worker_outputs` and the flattened `all_tasks` list is made
  explicit: the aggregator model returns both the aggregated plan and the
  post-run contents of `worker_outputs`;
* exceptions become `Except`, `json.loads` becomes a total parser into
  `Except` over a `Json` value type.
-/

/-! ### Generic list / string helpers used by the embedding -/

/-- Lexicographic comparison of char lists by code point: this is exactly
Python's `<=` on strings, used to model `sorted(worker_outputs.keys())`.
Defined structurally so that it reduces inside the kernel. -/
def lexLe : List Char → List Char → Bool
  | [], _ => true
  | _ :: _, [] => false
  | a :: as, b :: bs =>
    if a.toNat < b.toNat then true
    else if a.toNat = b.toNat then lexLe as bs
    else false

/-- String comparison as Python's `sorted` uses it. -/
def strLe (a b : String) : Prop := lexLe a.data b.data = true

instance : DecidableRel strLe := fun a b => by
  unfold strLe; infer_instance

/-- ASCII lowercase of one character, as `str.lower` acts on the ASCII
range (the inputs of interest are ASCII). -/
def lowerChar (c : Char) : Char :=
  if 65 ≤ c.toNat ∧ c.toNat ≤ 90 then Char.ofNat (c.toNat + 32) else c

/-- ASCII lowercase of a string, modelling Python's `str.lower`. -/
def lowerStr (s : String) : String := String.mk (s.data.map lowerChar)

/-- Substring containment test, modelling Python's `needle in haystack`. -/
def containsSub (hay needle : List Char) : Bool :=
  match hay with
  | [] => needle.isEmpty
  | _ :: t => needle.isPrefixOf hay || containsSub t needle

/-- First maximal run of ASCII digits in a char list: the first match of
the regex `\d+`, as used by `re.findall(r'\d+', s)[0]`. -/
def firstDigitRun : List Char → Option (List Char)
  | [] => none
  | c :: cs =>
    if c.isDigit then some (c :: cs.takeWhile Char.isDigit)
    else firstDigitRun cs

/-- Decimal value of a digit run, modelling Python's `int` on a digit
string. -/
def natOfDigitRun (l : List Char) : Nat :=
  l.foldl (fun a c => a * 10 + (c.toNat - 48)) 0

/-- The decimal digit characters. -/
def digitChar (d : Nat) : Char :=
  match d with
  | 0 => '0' | 1 => '1' | 2 => '2' | 3 => '3' | 4 => '4'
  | 5 => '5' | 6 => '6' | 7 => '7' | 8 => '8' | 9 => '9'
  | _ => '*'

/-- Numeric value of a decimal digit character (inverse of `digitChar`). -/
def digitVal (c : Char) : Nat := c.toNat - 48

/-- Fuel-driven most-significant-first decimal rendering of a natural
number; the fuel makes the recursion structural so that concrete values
reduce by `rfl`/`decide`. -/
def decCharsAux : Nat → Nat → List Char
  | 0, _ => []
  | fuel + 1, n =>
    if n = 0 then [] else decCharsAux fuel (n / 10) ++ [digitChar (n % 10)]

/-- Decimal rendering of a natural number, as Python's `str`/`format`
produce it. -/
def decChars (n : Nat) : List Char :=
  if n = 0 then ['0'] else decCharsAux n n

/-- Zero-pad a digit string on the left to width 4: the `%04d` format
specifier. -/
def padLeft4 (l : List Char) : List Char :=
  List.replicate (4 - l.length) '0' ++ l

/-- The task-identifier format `f"T{n:04d}"` from `add_task_identifiers`:
the letter `T` followed by the decimal digits of `n`, zero-padded on the
left to at least four digits. -/
def formatT (n : Nat) : String :=
  String.mk ('T' :: padLeft4 (decChars n))

/-- Point update of a list, modelling `xs[i] = f(xs[i])` on a Python list. -/
def modifyIdx (f : α → α) : Nat → List α → List α
  | _, [] => []
  | 0, a :: as => f a :: as
  | n + 1, a :: as => a :: modifyIdx f n as

/-- First value stored under a key in an association list; models lookup
in a Python dict whose keys are unique. -/
def lookupKey (k : String) : List (String × β) → Option β
  | [] => none
  | (k', v) :: rest => if k' = k then some v else lookupKey k rest

/-- Insert-or-replace for an association list; models `d[k] = v`. -/
def setKey (k : String) (v : β) : List (String × β) → List (String × β)
  | [] => [(k, v)]
  | (k', v') :: rest =>
    if k' = k then (k, v) :: rest else (k', v') :: setKey k v rest

/-! ### The task record

A task is a JSON object produced by the generative backend; the aggregator
reads and writes the fields below.  `none` models an absent dictionary
key.  Dates are stored as day numbers (see the header comment). -/

structure PlanTask where
  phase_name : Option String := none
  activity_name : Option String := none
  task_name : Option String := none
  task_duration : Option String := none
  task_id : Option String := none
  predecessor : Option String := none
  successor : Option String := none
  dependency_type : Option String := none
  task_start_date : Option Int := none
  task_end_date : Option Int := none
deriving DecidableEq, Inhabited

/-! ### parse_duration (src/nodes/aggregator.py lines 12-29) -/

/-- Duration parsing from `aggregator.py`: lowercase the string, take the
first integer found by `re.findall(r'\d+', ...)`, scale by 7 for "week"
and 30 for "month", otherwise clamp below by 1; default 5 when the string
is empty or holds no integer. -/
def parse_duration (duration_str : String) : Nat :=
  if duration_str = "" then 5
  else
    let s := lowerStr duration_str
    match firstDigitRun s.data with
    | none => 5
    | some run =>
      let num := natOfDigitRun run
      if containsSub s.data ['w', 'e', 'e', 'k'] then num * 7
      else if containsSub s.data ['m', 'o', 'n', 't', 'h'] then num * 30
      else max 1 num

example : parse_duration "2 weeks" = 14 := by decide
example : parse_duration "1 month" = 30 := by decide
example : parse_duration "5 days" = 5 := by decide
example : parse_duration "" = 5 := by decide
example : parse_duration "soon" = 5 := by decide
example : parse_duration "0 days" = 1 := by decide

/-! ### Calendar dates

Dates are day numbers from 1970-01-01 (a Thursday).  Python's
`datetime.weekday()` (Monday = 0) is `(d + 3) % 7`. -/

/-- Python `weekday()` of a day number. -/
def pyWeekday (d : Int) : Int := (d + 3) % 7

/-- Split a char list on a separator, as Python `str.split('-')` does. -/
def splitOnChar (sep : Char) : List Char → List (List Char)
  | [] => [[]]
  | c :: cs =>
    let r := splitOnChar sep cs
    if c = sep then [] :: r
    else
      match r with
      | [] => [[c]]
      | h :: t => (c :: h) :: t

/-- Gregorian leap-year test. -/
def isLeapYear (y : Nat) : Bool :=
  (y % 4 == 0 && !(y % 100 == 0)) || y % 400 == 0

/-- Length of a month in the proleptic Gregorian calendar. -/
def daysInMonth (y m : Nat) : Nat :=
  if m = 2 then (if isLeapYear y then 29 else 28)
  else if m = 4 ∨ m = 6 ∨ m = 9 ∨ m = 11 then 30
  else 31

/-- Day number of a civil date (days since 1970-01-01, Hinnant's
`days_from_civil` algorithm). -/
def daysFromCivil (y m d : Nat) : Int :=
  let yr : Int := if m ≤ 2 then (y : Int) - 1 else (y : Int)
  let era : Int := Int.fdiv yr 400
  let yoe : Nat := (yr - era * 400).toNat
  let mp : Nat := if 2 < m then m - 3 else m + 9
  let doy : Nat := (153 * mp + 2) / 5 + d - 1
  let doe : Nat := yoe * 365 + yoe / 4 - yoe / 100 + doy
  era * 146097 + (doe : Int) - 719468

/-- Parser for `datetime.strptime(s, "%Y-%m-%d")`: exactly four year
digits, one or two month and day digits, hyphen separators, whole string
consumed, and the date must be a real calendar date (CPython's `_strptime`
regexes plus the `datetime` constructor's range checks). -/
def parseDateYMD (s : String) : Option Int :=
  match splitOnChar '-' s.data with
  | [ys, ms, ds] =>
    if ys.length = 4 ∧ ys.all Char.isDigit ∧
       1 ≤ ms.length ∧ ms.length ≤ 2 ∧ ms.all Char.isDigit ∧
       1 ≤ ds.length ∧ ds.length ≤ 2 ∧ ds.all Char.isDigit then
      let y := natOfDigitRun ys
      let m := natOfDigitRun ms
      let d := natOfDigitRun ds
      if 1 ≤ y ∧ 1 ≤ m ∧ m ≤ 12 ∧ 1 ≤ d ∧ d ≤ daysInMonth y m then
        some (daysFromCivil y m d)
      else none
    else none
  | _ => none

example : daysFromCivil 1970 1 1 = 0 := by decide
example : daysFromCivil 1970 1 5 = 4 := by decide
example : pyWeekday (daysFromCivil 1970 1 5) = 0 := by decide
example : parseDateYMD "2024-05-06" = some (daysFromCivil 2024 5 6) := by decide
example : parseDateYMD "2024-13-01" = none := by decide
example : parseDateYMD "2023-02-29" = none := by decide
example : parseDateYMD "Immediate" = none := by decide

/-! ### calculate_project_start_date (src/nodes/prompt.py lines 11-45)

The Python function reads `datetime.now()`; the model takes that value as
the `today` parameter and returns the resolved day number (the final
`strftime "%Y-%m-%d"` is the identity in the day-number model). -/

/-- Start-date resolution from `prompt.py`: "Immediate" goes to the next
Monday strictly after `today`; "Within 1 Month" adds 30 days and advances
to the next Monday on or after; anything else is parsed as `%Y-%m-%d`,
falling back to the "Immediate" rule on failure. -/
def calculate_project_start_date (start_date_preference : String) (today : Int) : Int :=
  if start_date_preference = "Immediate" then
    let d0 := (7 - pyWeekday today) % 7
    let d := if d0 = 0 then 7 else d0
    today + d
  else if start_date_preference = "Within 1 Month" then
    let s := today + 30
    s + (7 - pyWeekday s) % 7
  else
    match parseDateYMD start_date_preference with
    | some d => d
    | none =>
      let d0 := (7 - pyWeekday today) % 7
      let d := if d0 = 0 then 7 else d0
      today + d

/-! ### calculate_sequential_dates (src/nodes/aggregator.py lines 32-65) -/

/-- The loop state of `calculate_sequential_dates`: the global cursor
`current_date` and the per-phase dictionary `phase_dates`. -/
structure SchedState where
  current : Int
  phase_dates : List (String × Int)
deriving DecidableEq, Inhabited

/-- Python rendering `f"{n} days"` used for the back-filled duration. -/
def durationText (n : Nat) : String := String.mk (decChars n) ++ " days"

/-- One iteration of the `for task in tasks` loop of
`calculate_sequential_dates`. -/
def schedStep (st : SchedState) (t : PlanTask) : SchedState × PlanTask :=
  let phase := t.phase_name.getD "General"
  let duration_days := parse_duration (t.task_duration.getD "5 days")
  let task_start : Int := (lookupKey phase st.phase_dates).getD st.current
  let task_end : Int := task_start + duration_days
  let t' : PlanTask :=
    { t with
      task_start_date := some task_start
      task_end_date := some task_end
      task_duration :=
        if t.task_duration.getD "" = "" then some (durationText duration_days)
        else t.task_duration }
  ({ current := if st.current < task_end then task_end else st.current
     phase_dates := setKey phase task_end st.phase_dates }, t')

/-- The whole loop of `calculate_sequential_dates`. -/
def schedRun (st : SchedState) : List PlanTask → List PlanTask
  | [] => []
  | t :: rest =>
    let p := schedStep st t
    p.2 :: schedRun p.1 rest

/-- `calculate_sequential_dates`: parse the start string (falling back to
`datetime.now()`, the `now` parameter) and run the scheduling loop. -/
def calculate_sequential_dates (tasks : List PlanTask) (start_date : String) (now : Int) : List PlanTask :=
  schedRun { current := (parseDateYMD start_date).getD now, phase_dates := [] } tasks

/-! ### add_task_identifiers (src/nodes/aggregator.py lines 68-90) -/

/-- The dependency-grouping key
`f"{task.get('phase_name', '')}|{task.get('activity_name', '')}"`. -/
def groupKey (t : PlanTask) : String :=
  t.phase_name.getD "" ++ "|" ++ t.activity_name.getD ""

/-- Identifier assignment `task["task_id"] = f"T{i+1:04d}"` over the list,
starting at index `i`. -/
def assignIdsFrom (i : Nat) : List PlanTask → List PlanTask
  | [] => []
  | t :: ts => { t with task_id := some (formatT (i + 1)) } :: assignIdsFrom (i + 1) ts

/-- Append one `(index, task_id)` pair to the group of its key, creating
the group at the end on first sight (Python dict insertion order). -/
def insertGroup (k : String) (v : Nat × String) :
    List (String × List (Nat × String)) → List (String × List (Nat × String))
  | [] => [(k, [v])]
  | (k', vs) :: rest =>
    if k' = k then (k, vs ++ [v]) :: rest
    else (k', vs) :: insertGroup k v rest

/-- The `phase_groups` dictionary built by the first loop of
`add_task_identifiers`, scanning tasks from index `i`. -/
def buildGroupsFrom (i : Nat) (gs : List (String × List (Nat × String))) :
    List PlanTask → List (String × List (Nat × String))
  | [] => gs
  | t :: ts => buildGroupsFrom (i + 1) (insertGroup (groupKey t) (i, formatT (i + 1)) gs) ts

/-- The write `tasks[task_idx]["predecessor"] = ...;
tasks[task_idx]["dependency_type"] = "FS"` performed for `idx > 0`. -/
def predUpd (p : String) (t : PlanTask) : PlanTask :=
  { t with predecessor := some p, dependency_type := some "FS" }

/-- The write `tasks[task_idx]["successor"] = group[idx + 1][1]` performed
for `idx < len(group) - 1`. -/
def succUpd (s : String) (t : PlanTask) : PlanTask :=
  { t with successor := some s }

/-- The `idx > 0` guard of the linking loop: update position `j` when a
previous member exists. -/
def linkUpd1 (prev : Option String) (j : Nat) (ts : List PlanTask) : List PlanTask :=
  match prev with
  | some p => modifyIdx (predUpd p) j ts
  | none => ts

/-- The `idx < len(group) - 1` guard of the linking loop: update position
`j` with the next member's identifier when it exists. -/
def linkUpd2 (rest : List (Nat × String)) (j : Nat) (ts : List PlanTask) : List PlanTask :=
  match rest with
  | (_, tid2) :: _ => modifyIdx (succUpd tid2) j ts
  | [] => ts

/-- The second loop of `add_task_identifiers` over one group: `prev` is
the identifier of the previous member (`group[idx-1][1]`); a member with a
predecessor gets dependency type "FS", a member with a following member
gets that member's identifier as successor. -/
def linkChain (prev : Option String) : List (Nat × String) → List PlanTask → List PlanTask
  | [], ts => ts
  | (j, tid) :: rest, ts => linkChain (some tid) rest (linkUpd2 rest j (linkUpd1 prev j ts))

/-- `add_task_identifiers`: assign identifiers positionally, then in
detailed mode chain consecutive members of every `(phase|activity)`
group. -/
def add_task_identifiers (tasks : List PlanTask) (plan_type : String) : List PlanTask :=
  let ts := assignIdsFrom 0 tasks
  let groups := buildGroupsFrom 0 [] tasks
  if plan_type = "detailed" then
    groups.foldl (fun acc kg => linkChain none kg.2 acc) ts
  else ts

/-! ### aggregator_node (src/nodes/aggregator.py lines 93-160) -/

/-- The value stored per worker key in `state["worker_outputs"]`. -/
structure WPackage where
  package_name : Option String := none
  tasks : List PlanTask := []
  task_count : Nat := 0
deriving DecidableEq, Inhabited

/-- The questionnaire responses the aggregator reads. -/
structure Responses where
  location : Option String := none
  project_type : Option String := none
  plan_level : Option String := none
  start_date : Option String := none
deriving DecidableEq, Inhabited

/-- The `project_info` block of the aggregated JSON (the copied
`project_scale` sub-mapping is omitted: the aggregator copies it verbatim
and never reads it). -/
structure ProjectInfo where
  location : String
  project_type : String
  plan_level : String
  start_date : String
  generated_at : Int
deriving DecidableEq, Inhabited

/-- The `aggregated_json` value built by `aggregator_node`. -/
structure AggregatedPlan where
  project_info : ProjectInfo
  plan_type : String
  tasks : List PlanTask
  total_tasks : Nat
deriving DecidableEq, Inhabited

/-- Phase back-fill `if not task.get("phase_name"): task["phase_name"] =
package_name` (Python falsiness: absent key or empty string). -/
def backfillPhase (pname : String) (t : PlanTask) : PlanTask :=
  if t.phase_name.getD "" = "" then { t with phase_name := some pname } else t

/-- `sorted(worker_outputs.keys())`. -/
def sortedKeys (w : List (String × WPackage)) : List String :=
  (w.map Prod.fst).insertionSort strLe

/-- The tasks contributed by the package under one key, phases
back-filled from `output.get("package_name", worker_key)`. -/
def packageBlock (k : String) (w : List (String × WPackage)) : List PlanTask :=
  match lookupKey k w with
  | some p => p.tasks.map (backfillPhase (p.package_name.getD k))
  | none => []

/-- The `all_tasks` list: packages visited in sorted key order, task lists
concatenated. -/
def flattenPackages (w : List (String × WPackage)) : List PlanTask :=
  (sortedKeys w).foldl (fun acc k => acc ++ packageBlock k w) []

/-- The final task list of `aggregator_node`: flatten, identify/link, and
in detailed mode schedule starting from the resolved start date.  (The
code round-trips the resolved date through `strftime`/`strptime`, which is
the identity on day numbers.) -/
def aggTasks (w : List (String × WPackage)) (responses : Responses)
    (plan_type : String) (today : Int) : List PlanTask :=
  let flat := flattenPackages w
  let withIds := add_task_identifiers flat plan_type
  if plan_type = "detailed" then
    let actual_start := calculate_project_start_date (responses.start_date.getD "Immediate") today
    schedRun { current := actual_start, phase_dates := [] } withIds
  else withIds

/-- Distribute the final (mutated) task list back onto the sorted keys:
each key receives the contiguous slice matching its block, mirroring that
the Python task dictionaries in `worker_outputs` are the same objects as
the entries of `all_tasks`. -/
def sliceWalk (finalTasks : List PlanTask) (w : List (String × WPackage)) :
    List String → List (String × List PlanTask)
  | [] => []
  | k :: ks =>
    let len := (packageBlock k w).length
    (k, finalTasks.take len) :: sliceWalk (finalTasks.drop len) w ks

/-- The contents of `state["worker_outputs"]` after `aggregator_node` ran:
same keys in the same order, but every package's task dictionaries now
carry the identifiers, back-filled phases, links and dates written by the
aggregation loops (in-place mutation made explicit). -/
def postOutputs (w : List (String × WPackage)) (finalTasks : List PlanTask) :
    List (String × WPackage) :=
  let slices := sliceWalk finalTasks w (sortedKeys w)
  w.map (fun kp => (kp.1, { kp.2 with tasks := (lookupKey kp.1 slices).getD kp.2.tasks }))

/-- `aggregator_node`: `none` plus untouched outputs on the empty-input
error path, otherwise the aggregated plan (timestamped with `now =
datetime.now()`) together with the mutated worker outputs. -/
def aggregator_node (w : List (String × WPackage)) (responses : Responses)
    (plan_type : String) (today now : Int) :
    Option AggregatedPlan × List (String × WPackage) :=
  if w = [] then (none, w)
  else
    let final := aggTasks w responses plan_type today
    (some
      { project_info :=
          { location := responses.location.getD ""
            project_type := responses.project_type.getD ""
            plan_level := responses.plan_level.getD ""
            start_date := responses.start_date.getD ""
            generated_at := now }
        plan_type := plan_type
        tasks := final
        total_tasks := final.length },
     postOutputs w final)

/-! ### Properties of the decimal rendering and of `formatT` -/

theorem digitVal_digitChar {d : Nat} (hd : d < 10) : digitVal (digitChar d) = d := by
  interval_cases d <;> decide

theorem decCharsAux_eq (fuel : Nat) : ∀ n : Nat, n ≤ fuel →
    decCharsAux fuel n = ((Nat.digits 10 n).map digitChar).reverse := by
  induction fuel with
  | zero =>
    intro n hn
    interval_cases n
    simp [decCharsAux]
  | succ fuel ih =>
    intro n hn
    by_cases hz : n = 0
    · subst hz; simp [decCharsAux]
    · rw [decCharsAux, if_neg hz, ih (n / 10) (by
        have := Nat.div_lt_self (Nat.pos_of_ne_zero hz) (by norm_num : 1 < 10)
        omega)]
      rw [Nat.digits_def' (by norm_num : (1 : ℕ) < 10) (Nat.pos_of_ne_zero hz)]
      simp

/-- Decimal decoding, the proof-side inverse of the rendering. -/
def decodeT (l : List Char) : Nat := Nat.ofDigits 10 (l.reverse.map digitVal)

theorem ofDigits_replicate_zero (k : Nat) : Nat.ofDigits 10 (List.replicate k 0) = 0 := by
  induction k with
  | zero => simp [Nat.ofDigits]
  | succ k ih => simp [List.replicate_succ, Nat.ofDigits_cons, ih]

theorem decodeT_padLeft4_decChars (n : Nat) : decodeT (padLeft4 (decChars n)) = n := by
  unfold decodeT padLeft4
  rw [List.reverse_append, List.reverse_replicate, List.map_append, List.map_replicate]
  have h0 : digitVal '0' = 0 := by decide
  rw [h0, Nat.ofDigits_append, ofDigits_replicate_zero, Nat.mul_zero, Nat.add_zero]
  by_cases hz : n = 0
  · subst hz; decide
  · rw [decChars, if_neg hz, decCharsAux_eq n n le_rfl, List.reverse_reverse, List.map_map]
    have hmap : (Nat.digits 10 n).map (digitVal ∘ digitChar) = (Nat.digits 10 n).map id := by
      apply List.map_congr_left
      intro d hd
      exact digitVal_digitChar (Nat.digits_lt_base (by norm_num) hd)
    rw [hmap, List.map_id, Nat.ofDigits_digits]

theorem formatT_injective : Function.Injective formatT := by
  intro m n h
  have hdata : 'T' :: padLeft4 (decChars m) = 'T' :: padLeft4 (decChars n) := by
    have := congrArg String.data h
    simpa [formatT] using this
  have h2 : padLeft4 (decChars m) = padLeft4 (decChars n) := by
    injection hdata
  have := congrArg decodeT h2
  rwa [decodeT_padLeft4_decChars, decodeT_padLeft4_decChars] at this

theorem formatT_ne_empty (n : Nat) : formatT n ≠ "" := by
  intro h
  have := congrArg String.data h
  simp [formatT] at this

example : formatT 1 = "T0001" := by decide
example : formatT 123 = "T0123" := by decide
example : formatT 12345 = "T12345" := by decide

/-! ### Properties of the scheduling loop -/

/-- The phase key `task.get("phase_name", "General")` used by the
scheduler. -/
def phaseOf (t : PlanTask) : String := t.phase_name.getD "General"

/-- Scheduled start date of a task (0 when unscheduled). -/
def startOf (t : PlanTask) : Int := t.task_start_date.getD 0

/-- Scheduled end date of a task (0 when unscheduled). -/
def endOf (t : PlanTask) : Int := t.task_end_date.getD 0

/-- Parsed duration of a task. -/
def durOf (t : PlanTask) : Nat := parse_duration (t.task_duration.getD "5 days")

/-- The date at which the scheduler would start a task of phase `ph` in
state `st`: the phase cursor when the phase was seen before, else the
global cursor. -/
def cursorAt (st : SchedState) (ph : String) : Int :=
  (lookupKey ph st.phase_dates).getD st.current

theorem lookupKey_setKey (q k : String) (v : β) (l : List (String × β)) :
    lookupKey q (setKey k v l) = if k = q then some v else lookupKey q l := by
  induction l with
  | nil => by_cases hq : k = q <;> simp [setKey, lookupKey, hq]
  | cons kv rest ih =>
    obtain ⟨k', v'⟩ := kv
    by_cases h : k' = k
    · subst h
      by_cases hq : k' = q <;> simp [setKey, lookupKey, hq]
    · by_cases hq : k' = q
      · subst hq
        have hk : ¬k = k' := fun he => h he.symm
        simp [setKey, lookupKey, h, hk, lookupKey]
      · simp [setKey, lookupKey, h, hq, ih]

theorem schedStep_snd_phase (st : SchedState) (t : PlanTask) :
    phaseOf (schedStep st t).2 = phaseOf t := rfl

theorem schedStep_snd_start (st : SchedState) (t : PlanTask) :
    startOf (schedStep st t).2 = cursorAt st (phaseOf t) := rfl

theorem schedStep_snd_end (st : SchedState) (t : PlanTask) :
    endOf (schedStep st t).2 = cursorAt st (phaseOf t) + durOf t := rfl

theorem schedStep_fst_phase_dates (st : SchedState) (t : PlanTask) :
    (schedStep st t).1.phase_dates =
      setKey (phaseOf t) (cursorAt st (phaseOf t) + durOf t) st.phase_dates := rfl

theorem schedStep_fst_current (st : SchedState) (t : PlanTask) :
    (schedStep st t).1.current =
      if st.current < cursorAt st (phaseOf t) + (durOf t : Int)
      then cursorAt st (phaseOf t) + (durOf t : Int) else st.current := rfl

theorem schedStep_current_ge_end (st : SchedState) (t : PlanTask) :
    endOf (schedStep st t).2 ≤ (schedStep st t).1.current := by
  rw [schedStep_snd_end, schedStep_fst_current]
  split <;> omega

theorem schedStep_current_mono (st : SchedState) (t : PlanTask) :
    st.current ≤ (schedStep st t).1.current := by
  rw [schedStep_fst_current]
  split <;> omega

theorem cursorAt_step_same (st : SchedState) (t : PlanTask) :
    cursorAt (schedStep st t).1 (phaseOf t) = cursorAt st (phaseOf t) + durOf t := by
  unfold cursorAt
  rw [schedStep_fst_phase_dates, lookupKey_setKey, if_pos rfl, Option.getD_some]
  rfl

theorem cursorAt_step_other (st : SchedState) (t : PlanTask) (ph : String)
    (h : phaseOf t ≠ ph) :
    cursorAt (schedStep st t).1 ph =
      (lookupKey ph st.phase_dates).getD (schedStep st t).1.current := by
  unfold cursorAt
  rw [schedStep_fst_phase_dates, lookupKey_setKey, if_neg h]

theorem cursorAt_step_ge (st : SchedState) (t : PlanTask) (ph : String) :
    cursorAt st ph ≤ cursorAt (schedStep st t).1 ph := by
  by_cases h : phaseOf t = ph
  · subst h
    rw [cursorAt_step_same]
    omega
  · rw [cursorAt_step_other st t ph h]
    unfold cursorAt
    cases hlk : lookupKey ph st.phase_dates with
    | some d => simp
    | none =>
      simp only [Option.getD_none]
      exact schedStep_current_mono st t

theorem schedRun_length (ts : List PlanTask) : ∀ st : SchedState,
    (schedRun st ts).length = ts.length := by
  induction ts with
  | nil => intro st; rfl
  | cons t rest ih => intro st; simp [schedRun, ih]

theorem schedRun_cons (st : SchedState) (t : PlanTask) (rest : List PlanTask) :
    schedRun st (t :: rest) = (schedStep st t).2 :: schedRun (schedStep st t).1 rest := rfl

/-- Every scheduled task starts no earlier than what the initial state's
cursor for its phase prescribes. -/
theorem schedRun_start_ge_cursor (ts : List PlanTask) : ∀ (st : SchedState) (j : Nat),
    j < ts.length →
    cursorAt st (phaseOf ((schedRun st ts).getD j default)) ≤
      startOf ((schedRun st ts).getD j default) := by
  induction ts with
  | nil => intro st j h; simp at h
  | cons t rest ih =>
    intro st j hj
    cases j with
    | zero =>
      rw [schedRun_cons]
      simp only [List.getD_cons_zero]
      rw [schedStep_snd_phase, schedStep_snd_start]
    | succ j =>
      rw [schedRun_cons]
      simp only [List.getD_cons_succ]
      have hlt : j < rest.length := by simpa using Nat.lt_of_succ_lt_succ hj
      exact le_trans (cursorAt_step_ge st t _) (ih (schedStep st t).1 j hlt)

/-- Within one phase, every task of the run starts no earlier than the
end of every earlier task of that phase. -/
theorem schedRun_same_phase_le (ts : List PlanTask) : ∀ (st : SchedState) (i j : Nat),
    i < j → j < ts.length →
    phaseOf ((schedRun st ts).getD i default) = phaseOf ((schedRun st ts).getD j default) →
    endOf ((schedRun st ts).getD i default) ≤ startOf ((schedRun st ts).getD j default) := by
  induction ts with
  | nil => intro st i j hij hj; simp at hj
  | cons t rest ih =>
    intro st i j hij hj hph
    cases j with
    | zero => omega
    | succ j =>
      have hjr : j < rest.length := by simpa using Nat.lt_of_succ_lt_succ hj
      cases i with
      | zero =>
        rw [schedRun_cons] at hph ⊢
        simp only [List.getD_cons_zero, List.getD_cons_succ] at hph ⊢
        rw [schedStep_snd_phase] at hph
        have hF := schedRun_start_ge_cursor rest (schedStep st t).1 j hjr
        rw [← hph] at hF
        rw [cursorAt_step_same] at hF
        rw [schedStep_snd_end]
        exact hF
      | succ i =>
        rw [schedRun_cons] at hph ⊢
        simp only [List.getD_cons_succ] at hph ⊢
        exact ih (schedStep st t).1 i j (Nat.lt_of_succ_lt_succ hij) hjr hph

/-- A task opening a phase unknown to the initial state starts no earlier
than the end of every task scheduled before it, in any phase. -/
theorem schedRun_new_phase_ge_all (ts : List PlanTask) : ∀ (st : SchedState) (j : Nat),
    j < ts.length →
    lookupKey (phaseOf ((schedRun st ts).getD j default)) st.phase_dates = none →
    (∀ i, i < j →
      phaseOf ((schedRun st ts).getD i default) ≠ phaseOf ((schedRun st ts).getD j default)) →
    ∀ i, i < j →
      endOf ((schedRun st ts).getD i default) ≤ startOf ((schedRun st ts).getD j default) := by
  induction ts with
  | nil => intro st j hj; simp at hj
  | cons t rest ih =>
    intro st j hj hlook hdiff i hi
    cases j with
    | zero => omega
    | succ j =>
      have hjr : j < rest.length := by simpa using Nat.lt_of_succ_lt_succ hj
      rw [schedRun_cons] at hlook hdiff ⊢
      simp only [List.getD_cons_succ] at hlook hdiff ⊢
      have hph0 : phaseOf t ≠ phaseOf ((schedRun (schedStep st t).1 rest).getD j default) := by
        have := hdiff 0 (Nat.succ_pos j)
        simpa [List.getD_cons_zero, schedStep_snd_phase] using this
      have hlook' : lookupKey (phaseOf ((schedRun (schedStep st t).1 rest).getD j default))
          (schedStep st t).1.phase_dates = none := by
        rw [schedStep_fst_phase_dates, lookupKey_setKey, if_neg hph0]
        exact hlook
      cases i with
      | zero =>
        simp only [List.getD_cons_zero]
        have hF := schedRun_start_ge_cursor rest (schedStep st t).1 j hjr
        have hcur : cursorAt (schedStep st t).1
            (phaseOf ((schedRun (schedStep st t).1 rest).getD j default)) =
            (schedStep st t).1.current := by
          unfold cursorAt
          rw [hlook', Option.getD_none]
        rw [hcur] at hF
        exact le_trans (schedStep_current_ge_end st t) hF
      | succ i =>
        simp only [List.getD_cons_succ]
        refine ih (schedStep st t).1 j hjr hlook' ?_ i (Nat.lt_of_succ_lt_succ hi)
        intro i' hi'
        have := hdiff (i' + 1) (Nat.succ_lt_succ hi')
        simpa [List.getD_cons_succ] using this

/-! ### Properties of identifier assignment and dependency linking -/

theorem modifyIdx_length (f : α → α) : ∀ (i : Nat) (l : List α),
    (modifyIdx f i l).length = l.length := by
  intro i l
  induction l generalizing i with
  | nil => cases i <;> rfl
  | cons a as ih => cases i with
    | zero => rfl
    | succ i => simp [modifyIdx, ih]

theorem getD_modifyIdx_ne (f : α → α) (d : α) : ∀ (i j : Nat) (l : List α), i ≠ j →
    (modifyIdx f i l).getD j d = l.getD j d := by
  intro i j l
  induction l generalizing i j with
  | nil => intro _; cases i <;> rfl
  | cons a as ih =>
    intro hij
    cases i with
    | zero =>
      cases j with
      | zero => exact absurd rfl hij
      | succ j => rfl
    | succ i =>
      cases j with
      | zero => rfl
      | succ j =>
        simp only [modifyIdx, List.getD_cons_succ]
        exact ih i j (fun h => hij (by rw [h]))

theorem getD_modifyIdx_eq (f : α → α) (d : α) : ∀ (i : Nat) (l : List α), i < l.length →
    (modifyIdx f i l).getD i d = f (l.getD i d) := by
  intro i l
  induction l generalizing i with
  | nil => intro h; simp at h
  | cons a as ih =>
    intro hi
    cases i with
    | zero => rfl
    | succ i =>
      simp only [modifyIdx, List.getD_cons_succ]
      exact ih i (by simpa using Nat.lt_of_succ_lt_succ hi)

theorem assignIdsFrom_length : ∀ (k : Nat) (ts : List PlanTask),
    (assignIdsFrom k ts).length = ts.length := by
  intro k ts
  induction ts generalizing k with
  | nil => rfl
  | cons t rest ih => simp [assignIdsFrom, ih]

theorem assignIdsFrom_getD : ∀ (k : Nat) (ts : List PlanTask) (i : Nat), i < ts.length →
    (assignIdsFrom k ts).getD i default =
      { ts.getD i default with task_id := some (formatT (k + i + 1)) } := by
  intro k ts
  induction ts generalizing k with
  | nil => intro i h; simp at h
  | cons t rest ih =>
    intro i hi
    cases i with
    | zero => rfl
    | succ i =>
      simp only [assignIdsFrom, List.getD_cons_succ]
      rw [ih (k + 1) i (by simpa using Nat.lt_of_succ_lt_succ hi)]
      have : k + 1 + i + 1 = k + (i + 1) + 1 := by omega
      rw [this]

theorem linkUpd1_length (prev : Option String) (j : Nat) (ts : List PlanTask) :
    (linkUpd1 prev j ts).length = ts.length := by
  cases prev with
  | none => rfl
  | some p => simp [linkUpd1, modifyIdx_length]

theorem linkUpd2_length (rest : List (Nat × String)) (j : Nat) (ts : List PlanTask) :
    (linkUpd2 rest j ts).length = ts.length := by
  cases rest with
  | nil => rfl
  | cons q qs =>
    obtain ⟨j2, tid2⟩ := q
    simp [linkUpd2, modifyIdx_length]

theorem linkUpd1_getD_ne (prev : Option String) (j i : Nat) (ts : List PlanTask)
    (h : j ≠ i) : (linkUpd1 prev j ts).getD i default = ts.getD i default := by
  cases prev with
  | none => rfl
  | some p => exact getD_modifyIdx_ne _ _ _ _ _ h

theorem linkUpd2_getD_ne (rest : List (Nat × String)) (j i : Nat) (ts : List PlanTask)
    (h : j ≠ i) : (linkUpd2 rest j ts).getD i default = ts.getD i default := by
  cases rest with
  | nil => rfl
  | cons q qs =>
    obtain ⟨j2, tid2⟩ := q
    exact getD_modifyIdx_ne _ _ _ _ _ h

/-- Value-level counterpart of `linkUpd1`. -/
def chainUpd1 (prev : Option String) (t : PlanTask) : PlanTask :=
  match prev with
  | some p => predUpd p t
  | none => t

/-- Value-level counterpart of `linkUpd2`. -/
def chainUpd2 (rest : List (Nat × String)) (t : PlanTask) : PlanTask :=
  match rest with
  | (_, tid2) :: _ => succUpd tid2 t
  | [] => t

theorem linkUpd1_getD_eq (prev : Option String) (j : Nat) (ts : List PlanTask)
    (h : j < ts.length) :
    (linkUpd1 prev j ts).getD j default = chainUpd1 prev (ts.getD j default) := by
  cases prev with
  | none => rfl
  | some p => exact getD_modifyIdx_eq _ _ _ _ h

theorem linkUpd2_getD_eq (rest : List (Nat × String)) (j : Nat) (ts : List PlanTask)
    (h : j < ts.length) :
    (linkUpd2 rest j ts).getD j default = chainUpd2 rest (ts.getD j default) := by
  cases rest with
  | nil => rfl
  | cons q qs =>
    obtain ⟨j2, tid2⟩ := q
    exact getD_modifyIdx_eq _ _ _ _ h

theorem linkChain_length : ∀ (g : List (Nat × String)) (prev : Option String)
    (ts : List PlanTask), (linkChain prev g ts).length = ts.length := by
  intro g
  induction g with
  | nil => intro prev ts; rfl
  | cons p rest ih =>
    intro prev ts
    obtain ⟨j, tid⟩ := p
    show (linkChain (some tid) rest (linkUpd2 rest j (linkUpd1 prev j ts))).length = _
    rw [ih, linkUpd2_length, linkUpd1_length]

theorem linkChain_getD_notMem : ∀ (g : List (Nat × String)) (prev : Option String)
    (ts : List PlanTask) (i : Nat), (∀ p ∈ g, p.1 ≠ i) →
    (linkChain prev g ts).getD i default = ts.getD i default := by
  intro g
  induction g with
  | nil => intro prev ts i _; rfl
  | cons p rest ih =>
    intro prev ts i hne
    obtain ⟨j, tid⟩ := p
    have hj : j ≠ i := hne (j, tid) (List.mem_cons_self _ _)
    have hrest : ∀ q ∈ rest, q.1 ≠ i := fun q hq => hne q (List.mem_cons_of_mem _ hq)
    show (linkChain (some tid) rest (linkUpd2 rest j (linkUpd1 prev j ts))).getD i default = _
    rw [ih (some tid) _ i hrest, linkUpd2_getD_ne _ _ _ _ hj, linkUpd1_getD_ne _ _ _ _ hj]

/-- Functional description of what the linking loop writes at position
`i`, used to characterise `linkChain`. -/
def chainAt (prev : Option String) : List (Nat × String) → Nat → PlanTask → PlanTask
  | [], _, t => t
  | (j, tid) :: rest, i, t =>
    if j = i then chainUpd2 rest (chainUpd1 prev t)
    else chainAt (some tid) rest i t

theorem linkChain_getD : ∀ (g : List (Nat × String)) (prev : Option String)
    (ts : List PlanTask) (i : Nat), (g.map Prod.fst).Nodup → i < ts.length →
    (linkChain prev g ts).getD i default = chainAt prev g i (ts.getD i default) := by
  intro g
  induction g with
  | nil => intro prev ts i _ _; rfl
  | cons p rest ih =>
    intro prev ts i hnd hi
    obtain ⟨j, tid⟩ := p
    simp only [List.map_cons, List.nodup_cons] at hnd
    obtain ⟨hjrest, hndrest⟩ := hnd
    show (linkChain (some tid) rest (linkUpd2 rest j (linkUpd1 prev j ts))).getD i default =
      chainAt prev ((j, tid) :: rest) i (ts.getD i default)
    by_cases hj : j = i
    · subst hj
      have hnotmem : ∀ q ∈ rest, q.1 ≠ j := by
        intro q hq he
        exact hjrest (he ▸ List.mem_map_of_mem Prod.fst hq)
      rw [linkChain_getD_notMem rest (some tid) _ j hnotmem,
        linkUpd2_getD_eq _ _ _ (by rw [linkUpd1_length]; exact hi),
        linkUpd1_getD_eq _ _ _ hi]
      show _ = if j = j then chainUpd2 rest (chainUpd1 prev (ts.getD j default))
        else chainAt (some tid) rest j (ts.getD j default)
      rw [if_pos rfl]
    · rw [ih (some tid) _ i hndrest
        (by rw [linkUpd2_length, linkUpd1_length]; exact hi),
        linkUpd2_getD_ne _ _ _ _ hj, linkUpd1_getD_ne _ _ _ _ hj]
      show _ = if j = i then chainUpd2 rest (chainUpd1 prev (ts.getD i default))
        else chainAt (some tid) rest i (ts.getD i default)
      rw [if_neg hj]

/-- Grouping key of the task at position `i`. -/
def gkD (ts : List PlanTask) (i : Nat) : String := groupKey (ts.getD i default)

/-- The group that `add_task_identifiers` builds for key `k` over the
first `n` tasks: the positions with that key, in order, paired with their
identifiers. -/
def specGroup (ts : List PlanTask) (n : Nat) (k : String) : List (Nat × String) :=
  ((List.range n).filter (fun j => gkD ts j == k)).map (fun j => (j, formatT (j + 1)))

/-- `none` for an empty group, mirroring that a dict has no entry before
the first member arrives. -/
def wrapG (l : List (Nat × String)) : Option (List (Nat × String)) :=
  if l = [] then none else some l

theorem lookupKey_insertGroup (k₀ k : String) (v : Nat × String)
    (gs : List (String × List (Nat × String))) :
    lookupKey k (insertGroup k₀ v gs) =
      if k₀ = k then some ((lookupKey k gs).getD [] ++ [v]) else lookupKey k gs := by
  induction gs with
  | nil => by_cases h : k₀ = k <;> simp [insertGroup, lookupKey, h]
  | cons kv rest ih =>
    obtain ⟨k', vs⟩ := kv
    by_cases h1 : k' = k₀
    · subst h1
      by_cases h2 : k' = k
      · subst h2; simp [insertGroup, lookupKey]
      · simp [insertGroup, lookupKey, h2]
    · by_cases h2 : k' = k
      · subst h2
        have hne : ¬k₀ = k' := fun he => h1 he.symm
        simp [insertGroup, lookupKey, h1, hne]
      · simp [insertGroup, lookupKey, h1, h2, ih]

theorem insertGroup_keys (k₀ : String) (v : Nat × String)
    (gs : List (String × List (Nat × String))) :
    (insertGroup k₀ v gs).map Prod.fst =
      if k₀ ∈ gs.map Prod.fst then gs.map Prod.fst else gs.map Prod.fst ++ [k₀] := by
  induction gs with
  | nil => simp [insertGroup]
  | cons kv rest ih =>
    obtain ⟨k', vs⟩ := kv
    by_cases h : k' = k₀
    · subst h; simp [insertGroup]
    · have hne : ¬k₀ = k' := fun he => h he.symm
      by_cases hm : k₀ ∈ rest.map Prod.fst <;>
        simp [insertGroup, h, ih, hm, hne]

theorem insertGroup_keys_nodup (k₀ : String) (v : Nat × String)
    (gs : List (String × List (Nat × String))) (h : (gs.map Prod.fst).Nodup) :
    ((insertGroup k₀ v gs).map Prod.fst).Nodup := by
  rw [insertGroup_keys]
  by_cases hm : k₀ ∈ gs.map Prod.fst
  · rwa [if_pos hm]
  · rw [if_neg hm]
    simp [List.nodup_append, h, hm]

theorem specGroup_succ (ts : List PlanTask) (i : Nat) (k : String) :
    specGroup ts (i + 1) k =
      if gkD ts i = k then specGroup ts i k ++ [(i, formatT (i + 1))]
      else specGroup ts i k := by
  unfold specGroup
  rw [List.range_succ, List.filter_append]
  by_cases h : gkD ts i = k
  · simp [h]
  · simp [h]

theorem mem_keys_of_lookupKey_eq_some {β : Type} {k : String} {v : β}
    {gs : List (String × β)} (h : lookupKey k gs = some v) : k ∈ gs.map Prod.fst := by
  induction gs with
  | nil => simp [lookupKey] at h
  | cons kv rest ih =>
    obtain ⟨k', v'⟩ := kv
    by_cases he : k' = k
    · subst he; simp
    · simp only [lookupKey, if_neg he] at h
      simp [ih h]

theorem lookupKey_of_mem_nodup {β : Type} {k : String} {g : β}
    {gs : List (String × β)} (hnd : (gs.map Prod.fst).Nodup) (hm : (k, g) ∈ gs) :
    lookupKey k gs = some g := by
  induction gs with
  | nil => simp at hm
  | cons kv rest ih =>
    obtain ⟨k', v'⟩ := kv
    simp only [List.map_cons, List.nodup_cons] at hnd
    obtain ⟨hk', hnd'⟩ := hnd
    rcases List.mem_cons.mp hm with he | hm'
    · injection he with he1 he2
      subst he1; subst he2
      simp [lookupKey]
    · have hne : k' ≠ k := by
        intro he
        subst he
        exact hk' (List.mem_map_of_mem Prod.fst hm')
      simp only [lookupKey, if_neg hne]
      exact ih hnd' hm'

theorem buildGroupsFrom_spec (ts : List PlanTask) :
    ∀ (sub : List PlanTask) (i : Nat) (gs : List (String × List (Nat × String))),
      i ≤ ts.length →
      ts.drop i = sub →
      (∀ k, lookupKey k gs = wrapG (specGroup ts i k)) →
      (gs.map Prod.fst).Nodup →
      (∀ k, lookupKey k (buildGroupsFrom i gs sub) = wrapG (specGroup ts ts.length k)) ∧
      ((buildGroupsFrom i gs sub).map Prod.fst).Nodup := by
  intro sub
  induction sub with
  | nil =>
    intro i gs hile hdrop hlk hnd
    have hlen : ts.length ≤ i := List.drop_eq_nil_iff.mp hdrop
    have heq : i = ts.length := le_antisymm hile hlen
    subst heq
    exact ⟨hlk, hnd⟩
  | cons t rest ih =>
    intro i gs _ hdrop hlk hnd
    have hi : i < ts.length := by
      by_contra hc
      rw [List.drop_eq_nil_iff.mpr (by omega)] at hdrop
      cases hdrop
    have hcons : ts.drop i = ts[i] :: ts.drop (i + 1) := List.drop_eq_getElem_cons hi
    rw [hdrop] at hcons
    have ht : t = ts[i] := (List.cons.injEq _ _ _ _ ▸ hcons).1
    have hrest : ts.drop (i + 1) = rest := ((List.cons.injEq _ _ _ _ ▸ hcons).2).symm
    have hkey : groupKey t = gkD ts i := by
      rw [ht, gkD, List.getD_eq_getElem ts default hi]
    show (∀ k, lookupKey k (buildGroupsFrom (i + 1)
        (insertGroup (groupKey t) (i, formatT (i + 1)) gs) rest) =
        wrapG (specGroup ts ts.length k)) ∧ _
    apply ih (i + 1) _ (by omega) hrest
    · intro k
      rw [lookupKey_insertGroup, specGroup_succ, hkey]
      by_cases hk : gkD ts i = k
      · rw [if_pos hk, if_pos hk, hlk k]
        unfold wrapG
        by_cases he : specGroup ts i k = []
        · rw [if_pos he, he]
          simp
        · rw [if_neg he, if_neg (by simp)]
          simp
      · rw [if_neg hk, if_neg hk, hlk k]
    · exact insertGroup_keys_nodup _ _ _ hnd

theorem specGroup_fst (ts : List PlanTask) (n : Nat) (k : String) :
    (specGroup ts n k).map Prod.fst = (List.range n).filter (fun j => gkD ts j == k) := by
  unfold specGroup
  rw [List.map_map]
  rw [show (Prod.fst ∘ fun j => (j, formatT (j + 1))) = id from rfl, List.map_id]

theorem specGroup_fst_nodup (ts : List PlanTask) (n : Nat) (k : String) :
    ((specGroup ts n k).map Prod.fst).Nodup := by
  rw [specGroup_fst]
  exact (List.nodup_range n).filter _

theorem mem_specGroup_key (ts : List PlanTask) (n : Nat) (k : String) (p : Nat × String)
    (hp : p ∈ specGroup ts n k) : gkD ts p.1 = k := by
  unfold specGroup at hp
  obtain ⟨j, hj, hje⟩ := List.mem_map.mp hp
  have := (List.mem_filter.mp hj).2
  rw [← hje]
  exact beq_iff_eq.mp this

theorem foldLink_getD (ts : List PlanTask) :
    ∀ (gsl : List (String × List (Nat × String))) (acc : List PlanTask) (i : Nat),
      (∀ kg ∈ gsl, kg.2 = specGroup ts ts.length kg.1) →
      (gsl.map Prod.fst).Nodup →
      acc.length = ts.length → i < ts.length →
      (gsl.foldl (fun a kg => linkChain none kg.2 a) acc).getD i default =
        if gkD ts i ∈ gsl.map Prod.fst
        then chainAt none (specGroup ts ts.length (gkD ts i)) i (acc.getD i default)
        else acc.getD i default := by
  intro gsl
  induction gsl with
  | nil =>
    intro acc i _ _ _ _
    simp only [List.foldl_nil, List.map_nil]
    rw [if_neg (List.not_mem_nil _)]
  | cons kg rest ih =>
    intro acc i hentry hnd hlen hi
    obtain ⟨k, g⟩ := kg
    simp only [List.map_cons]
    have hg : g = specGroup ts ts.length k := hentry (k, g) (List.mem_cons_self _ _)
    simp only [List.map_cons, List.nodup_cons] at hnd
    obtain ⟨hknot, hndrest⟩ := hnd
    have hlen' : (linkChain none g acc).length = ts.length := by
      rw [linkChain_length]; exact hlen
    have hstep := ih (linkChain none g acc) i
      (fun q hq => hentry q (List.mem_cons_of_mem _ hq)) hndrest hlen' hi
    show (rest.foldl (fun a kg => linkChain none kg.2 a) (linkChain none g acc)).getD i default = _
    rw [hstep]
    by_cases hk : gkD ts i = k
    · have hnotrest : gkD ts i ∉ rest.map Prod.fst := by rw [hk]; exact hknot
      rw [if_neg hnotrest]
      rw [linkChain_getD g none acc i (hg ▸ specGroup_fst_nodup ts ts.length k)
        (by rw [hlen]; exact hi)]
      rw [if_pos (by simp [hk])]
      rw [hg, hk]
    · have hnotg : ∀ p ∈ g, p.1 ≠ i := by
        intro p hp he
        exact hk (he ▸ mem_specGroup_key ts ts.length k p (hg ▸ hp))
      rw [linkChain_getD_notMem g none acc i hnotg]
      have : (gkD ts i ∈ k :: rest.map Prod.fst) ↔ (gkD ts i ∈ rest.map Prod.fst) := by
        simp [hk]
      by_cases hm : gkD ts i ∈ rest.map Prod.fst
      · rw [if_pos hm, if_pos (this.mpr hm)]
      · rw [if_neg hm, if_neg (fun hc => hm (this.mp hc))]

theorem range_split (n i : Nat) (h : i ≤ n) :
    List.range n = List.range i ++ List.range' i (n - i) := by
  rw [List.range_eq_range', List.range_eq_range']
  have happ := List.range'_append 0 i (n - i) 1
  simp only [Nat.zero_add, Nat.one_mul] at happ
  rw [happ]
  congr 1
  omega

theorem chainAt_split : ∀ (A B : List Nat) (prev : Option String) (i : Nat) (t : PlanTask),
    i ∉ A →
    chainAt prev ((A ++ i :: B).map (fun j => (j, formatT (j + 1)))) i t =
      chainUpd2 (B.map (fun j => (j, formatT (j + 1))))
        (chainUpd1
          (match A.getLast? with
           | some a => some (formatT (a + 1))
           | none => prev) t) := by
  intro A
  induction A with
  | nil =>
    intro B prev i t _
    show chainAt prev ((i, formatT (i + 1)) :: B.map _) i t = _
    simp only [chainAt, if_pos rfl]
    rfl
  | cons a A' ih =>
    intro B prev i t hnot
    have ha : a ≠ i := fun he => hnot (he ▸ List.mem_cons_self _ _)
    have hnot' : i ∉ A' := fun hm => hnot (List.mem_cons_of_mem _ hm)
    show chainAt prev ((a, formatT (a + 1)) :: (A' ++ i :: B).map _) i t = _
    simp only [chainAt, if_neg ha]
    rw [ih B (some (formatT (a + 1))) i t hnot']
    cases A' with
    | nil => rfl
    | cons a' A'' =>
      rw [List.getLast?_cons_cons]
      cases h : (a' :: A'').getLast? with
      | none => simp at h
      | some x => rfl

/-- Position of the previous task with the same grouping key (the group
member just before `i`). -/
def prevSame (ts : List PlanTask) (i : Nat) : Option Nat :=
  ((List.range i).filter (fun j => gkD ts j == gkD ts i)).getLast?

/-- Position of the next task with the same grouping key (the group
member just after `i`). -/
def nextSame (ts : List PlanTask) (i : Nat) : Option Nat :=
  ((List.range' (i + 1) (ts.length - (i + 1))).filter
    (fun j => gkD ts j == gkD ts i)).head?

/-- A task after the Identify step only: identifier assigned, everything
else untouched. -/
def idOnly (ts : List PlanTask) (i : Nat) : PlanTask :=
  { ts.getD i default with task_id := some (formatT (i + 1)) }

/-- What `add_task_identifiers` produces at position `i` in detailed
mode: the identifier, plus predecessor/"FS" from the previous same-key
member and successor from the next same-key member, when they exist. -/
def linkedForm (ts : List PlanTask) (i : Nat) : PlanTask :=
  let t1 := idOnly ts i
  let t2 := match prevSame ts i with
    | some j => predUpd (formatT (j + 1)) t1
    | none => t1
  match nextSame ts i with
  | some j => succUpd (formatT (j + 1)) t2
  | none => t2

theorem specGroup_key_split (ts : List PlanTask) (i : Nat) (hi : i < ts.length) :
    (List.range ts.length).filter (fun j => gkD ts j == gkD ts i) =
      ((List.range i).filter (fun j => gkD ts j == gkD ts i)) ++
        i :: ((List.range' (i + 1) (ts.length - (i + 1))).filter
          (fun j => gkD ts j == gkD ts i)) := by
  rw [range_split ts.length i (le_of_lt hi), List.filter_append]
  congr 1
  have h1 : ts.length - i = (ts.length - (i + 1)) + 1 := by omega
  rw [h1, List.range'_succ, List.filter_cons, if_pos (by simp)]

theorem add_task_identifiers_detailed_getD (ts : List PlanTask) (i : Nat)
    (hi : i < ts.length) :
    (add_task_identifiers ts "detailed").getD i default = linkedForm ts i := by
  obtain ⟨hlk, hnd⟩ := buildGroupsFrom_spec ts ts 0 [] (Nat.zero_le _) rfl
    (fun k => by
      show (none : Option (List (Nat × String))) = wrapG (specGroup ts 0 k)
      unfold specGroup wrapG
      simp) (by simp)
  have hentries : ∀ kg ∈ buildGroupsFrom 0 [] ts, kg.2 = specGroup ts ts.length kg.1 := by
    intro kg hkg
    obtain ⟨k, g⟩ := kg
    have h1 : lookupKey k (buildGroupsFrom 0 [] ts) = some g :=
      lookupKey_of_mem_nodup hnd hkg
    rw [hlk k] at h1
    unfold wrapG at h1
    by_cases he : specGroup ts ts.length k = []
    · rw [if_pos he] at h1; cases h1
    · rw [if_neg he] at h1
      injection h1 with h1
      exact h1.symm
  have hkeymem : i ∈ (List.range ts.length).filter (fun j => gkD ts j == gkD ts i) :=
    List.mem_filter.mpr ⟨List.mem_range.mpr hi, by simp⟩
  have hspecne : specGroup ts ts.length (gkD ts i) ≠ [] :=
    List.ne_nil_of_mem (List.mem_map_of_mem _ hkeymem)
  have hmem : gkD ts i ∈ (buildGroupsFrom 0 [] ts).map Prod.fst := by
    apply mem_keys_of_lookupKey_eq_some (v := specGroup ts ts.length (gkD ts i))
    rw [hlk]
    unfold wrapG
    rw [if_neg hspecne]
  have hstep : add_task_identifiers ts "detailed" =
      (buildGroupsFrom 0 [] ts).foldl (fun a kg => linkChain none kg.2 a)
        (assignIdsFrom 0 ts) := by
    unfold add_task_identifiers
    rw [if_pos rfl]
  rw [hstep,
    foldLink_getD ts _ _ i hentries hnd (assignIdsFrom_length 0 ts) hi,
    if_pos hmem, assignIdsFrom_getD 0 ts i hi, Nat.zero_add]
  have hnotA : i ∉ (List.range i).filter (fun j => gkD ts j == gkD ts i) := by
    intro hm
    exact absurd (List.mem_range.mp (List.mem_filter.mp hm).1) (lt_irrefl i)
  unfold specGroup
  rw [specGroup_key_split ts i hi, chainAt_split _ _ none i _ hnotA]
  unfold linkedForm prevSame nextSame idOnly
  cases hA : ((List.range i).filter (fun j => gkD ts j == gkD ts i)).getLast? with
  | none =>
    cases hB : (List.range' (i + 1) (ts.length - (i + 1))).filter
        (fun j => gkD ts j == gkD ts i) with
    | nil => rfl
    | cons b bs => rfl
  | some a =>
    cases hB : (List.range' (i + 1) (ts.length - (i + 1))).filter
        (fun j => gkD ts j == gkD ts i) with
    | nil => rfl
    | cons b bs => rfl

theorem add_task_identifiers_other (ts : List PlanTask) (pt : String)
    (h : pt ≠ "detailed") : add_task_identifiers ts pt = assignIdsFrom 0 ts := by
  unfold add_task_identifiers
  rw [if_neg h]

theorem foldLink_length : ∀ (gsl : List (String × List (Nat × String)))
    (acc : List PlanTask),
    (gsl.foldl (fun a kg => linkChain none kg.2 a) acc).length = acc.length := by
  intro gsl
  induction gsl with
  | nil => intro acc; rfl
  | cons kg rest ih =>
    intro acc
    show (rest.foldl (fun a kg => linkChain none kg.2 a) (linkChain none kg.2 acc)).length = _
    rw [ih, linkChain_length]

theorem add_task_identifiers_length (ts : List PlanTask) (pt : String) :
    (add_task_identifiers ts pt).length = ts.length := by
  unfold add_task_identifiers
  by_cases h : pt = "detailed"
  · rw [if_pos h, foldLink_length, assignIdsFrom_length]
  · rw [if_neg h, assignIdsFrom_length]

theorem linkedForm_task_id (ts : List PlanTask) (i : Nat) :
    (linkedForm ts i).task_id = some (formatT (i + 1)) := by
  unfold linkedForm
  cases hp : prevSame ts i <;> cases hn : nextSame ts i <;>
    simp [predUpd, succUpd, idOnly]

theorem add_task_identifiers_task_id (ts : List PlanTask) (pt : String) (i : Nat)
    (hi : i < ts.length) :
    ((add_task_identifiers ts pt).getD i default).task_id = some (formatT (i + 1)) := by
  by_cases h : pt = "detailed"
  · subst h
    rw [add_task_identifiers_detailed_getD ts i hi, linkedForm_task_id]
  · rw [add_task_identifiers_other ts pt h, assignIdsFrom_getD 0 ts i hi, Nat.zero_add]

theorem schedRun_getD_task_id (ts : List PlanTask) : ∀ (st : SchedState) (i : Nat),
    i < ts.length →
    ((schedRun st ts).getD i default).task_id = (ts.getD i default).task_id := by
  induction ts with
  | nil => intro st i h; simp at h
  | cons t rest ih =>
    intro st i hi
    cases i with
    | zero => rfl
    | succ i =>
      rw [schedRun_cons]
      simp only [List.getD_cons_succ]
      exact ih _ i (by simpa using Nat.lt_of_succ_lt_succ hi)

/-! ### Properties of the flatten step and the aggregator -/

theorem foldl_append_eq_flatten {α β : Type} (f : β → List α) :
    ∀ (keys : List β) (init : List α),
      keys.foldl (fun acc k => acc ++ f k) init = init ++ (keys.map f).flatten := by
  intro keys
  induction keys with
  | nil => intro init; simp
  | cons k ks ih =>
    intro init
    show ks.foldl (fun acc k => acc ++ f k) (init ++ f k) = _
    rw [ih]
    simp

theorem flattenPackages_eq (w : List (String × WPackage)) :
    flattenPackages w = ((sortedKeys w).map (fun k => packageBlock k w)).flatten := by
  unfold flattenPackages
  rw [foldl_append_eq_flatten]
  simp

theorem packageBlock_cons_self (k₀ : String) (p₀ : WPackage)
    (rest : List (String × WPackage)) :
    packageBlock k₀ ((k₀, p₀) :: rest) =
      p₀.tasks.map (backfillPhase (p₀.package_name.getD k₀)) := by
  unfold packageBlock
  simp [lookupKey]

theorem packageBlock_cons_other (k k₀ : String) (p₀ : WPackage)
    (rest : List (String × WPackage)) (h : k₀ ≠ k) :
    packageBlock k ((k₀, p₀) :: rest) = packageBlock k rest := by
  unfold packageBlock
  simp [lookupKey, h]

theorem sum_blocks_over_keys : ∀ (w : List (String × WPackage)),
    (w.map Prod.fst).Nodup →
    ((w.map Prod.fst).map (fun k => (packageBlock k w).length)).sum =
      (w.map (fun kp => kp.2.tasks.length)).sum := by
  intro w
  induction w with
  | nil => intro _; rfl
  | cons kp rest ih =>
    intro hnd
    obtain ⟨k₀, p₀⟩ := kp
    simp only [List.map_cons, List.nodup_cons] at hnd ⊢
    obtain ⟨hk₀, hndrest⟩ := hnd
    rw [List.sum_cons, List.sum_cons]
    congr 1
    · rw [packageBlock_cons_self, List.length_map]
    · have hmapeq : (rest.map Prod.fst).map (fun k => (packageBlock k ((k₀, p₀) :: rest)).length) =
          (rest.map Prod.fst).map (fun k => (packageBlock k rest).length) := by
        apply List.map_congr_left
        intro k hk
        have hne : k₀ ≠ k := by
          intro he
          exact hk₀ (he ▸ hk)
        rw [packageBlock_cons_other k k₀ p₀ rest hne]
      rw [hmapeq, ih hndrest]

theorem flattenPackages_length (w : List (String × WPackage))
    (hnd : (w.map Prod.fst).Nodup) :
    (flattenPackages w).length = (w.map (fun kp => kp.2.tasks.length)).sum := by
  rw [flattenPackages_eq, List.length_flatten, List.map_map]
  have hperm : List.Perm (sortedKeys w) (w.map Prod.fst) := List.perm_insertionSort _ _
  have hsum := (hperm.map (fun k => (packageBlock k w).length)).sum_eq
  calc ((sortedKeys w).map (List.length ∘ fun k => packageBlock k w)).sum
      = ((sortedKeys w).map (fun k => (packageBlock k w).length)).sum := rfl
    _ = ((w.map Prod.fst).map (fun k => (packageBlock k w).length)).sum := hsum
    _ = (w.map (fun kp => kp.2.tasks.length)).sum := sum_blocks_over_keys w hnd

theorem aggTasks_length (w : List (String × WPackage)) (responses : Responses)
    (pt : String) (today : Int) (hnd : (w.map Prod.fst).Nodup) :
    (aggTasks w responses pt today).length =
      (w.map (fun kp => kp.2.tasks.length)).sum := by
  unfold aggTasks
  by_cases h : pt = "detailed"
  · rw [if_pos h, schedRun_length, add_task_identifiers_length, flattenPackages_length w hnd]
  · rw [if_neg h, add_task_identifiers_length, flattenPackages_length w hnd]

theorem aggTasks_task_id (w : List (String × WPackage)) (responses : Responses)
    (pt : String) (today : Int) (i : Nat)
    (hi : i < (flattenPackages w).length) :
    ((aggTasks w responses pt today).getD i default).task_id = some (formatT (i + 1)) := by
  unfold aggTasks
  by_cases h : pt = "detailed"
  · rw [if_pos h]
    rw [schedRun_getD_task_id _ _ i (by rw [add_task_identifiers_length]; exact hi)]
    exact add_task_identifiers_task_id _ _ i hi
  · rw [if_neg h]
    exact add_task_identifiers_task_id _ _ i hi

/-! ### The key order used by `sorted(...)` is a linear order -/

theorem char_toNat_inj {a b : Char} (h : a.toNat = b.toNat) : a = b := by
  apply Char.ext
  apply UInt32.ext
  simpa [Char.toNat] using h

theorem lexLe_refl : ∀ a : List Char, lexLe a a = true := by
  intro a
  induction a with
  | nil => rfl
  | cons c cs ih => simp [lexLe, ih]

theorem lexLe_total : ∀ a b : List Char, lexLe a b = true ∨ lexLe b a = true := by
  intro a
  induction a with
  | nil => intro b; left; rfl
  | cons c cs ih =>
    intro b
    cases b with
    | nil => right; rfl
    | cons d ds =>
      by_cases h1 : c.toNat < d.toNat
      · left; simp [lexLe, h1]
      · by_cases h2 : c.toNat = d.toNat
        · have hcd : c = d := char_toNat_inj h2
          subst hcd
          rcases ih ds with h | h
          · left; simp [lexLe, h]
          · right; simp [lexLe, h]
        · right
          have h3 : d.toNat < c.toNat := by omega
          simp [lexLe, h3]

theorem lexLe_trans : ∀ a b c : List Char,
    lexLe a b = true → lexLe b c = true → lexLe a c = true := by
  intro a
  induction a with
  | nil => intro b c _ _; rfl
  | cons x xs ih =>
    intro b c hab hbc
    cases b with
    | nil => simp [lexLe] at hab
    | cons y ys =>
      cases c with
      | nil => simp [lexLe] at hbc
      | cons z zs =>
        simp only [lexLe] at hab hbc ⊢
        by_cases h1 : x.toNat < y.toNat
        · by_cases h2 : y.toNat < z.toNat
          · rw [if_pos (by omega)]
          · rw [if_pos h1] at hab
            by_cases h3 : y.toNat = z.toNat
            · rw [if_pos (by omega)]
            · rw [if_neg h2, if_neg h3] at hbc
              cases hbc
        · by_cases h1e : x.toNat = y.toNat
          · have hxy : x = y := char_toNat_inj h1e
            subst hxy
            rw [if_neg h1, if_pos rfl] at hab
            by_cases h2 : x.toNat < z.toNat
            · rw [if_pos h2]
            · by_cases h3 : x.toNat = z.toNat
              · have hxz : x = z := char_toNat_inj h3
                subst hxz
                rw [if_neg h2, if_pos rfl] at hbc ⊢
                exact ih ys zs hab hbc
              · rw [if_neg h2, if_neg h3] at hbc
                cases hbc
          · rw [if_neg h1, if_neg h1e] at hab
            cases hab

theorem lexLe_antisymm : ∀ a b : List Char,
    lexLe a b = true → lexLe b a = true → a = b := by
  intro a
  induction a with
  | nil =>
    intro b _ hba
    cases b with
    | nil => rfl
    | cons d ds => simp [lexLe] at hba
  | cons c cs ih =>
    intro b hab hba
    cases b with
    | nil => simp [lexLe] at hab
    | cons d ds =>
      simp only [lexLe] at hab hba
      by_cases h1 : c.toNat < d.toNat
      · rw [if_neg (show ¬d.toNat < c.toNat by omega),
          if_neg (show ¬d.toNat = c.toNat by omega)] at hba
        cases hba
      · by_cases h2 : c.toNat = d.toNat
        · have hcd : c = d := char_toNat_inj h2
          subst hcd
          rw [if_neg h1, if_pos rfl] at hab hba
          rw [ih ds hab hba]
        · rw [if_neg h1, if_neg h2] at hab
          cases hab

instance : IsTotal String strLe :=
  ⟨fun a b => lexLe_total a.data b.data⟩

instance : IsTrans String strLe :=
  ⟨fun a b c => lexLe_trans a.data b.data c.data⟩

instance : IsAntisymm String strLe :=
  ⟨fun a b hab hba => by
    have hd := lexLe_antisymm a.data b.data hab hba
    cases a; cases b
    exact congrArg String.mk hd⟩

instance : IsRefl String strLe :=
  ⟨fun a => lexLe_refl a.data⟩

/-! ### Permutation invariance: the aggregate does not depend on dict
insertion (completion) order -/

theorem lookupKey_perm {β : Type} : ∀ {w₁ w₂ : List (String × β)},
    List.Perm w₁ w₂ → (w₁.map Prod.fst).Nodup →
    ∀ k, lookupKey k w₁ = lookupKey k w₂ := by
  intro w₁ w₂ hperm
  induction hperm with
  | nil => intro _ k; rfl
  | cons x h ih =>
    intro hnd k
    obtain ⟨kx, vx⟩ := x
    simp only [List.map_cons, List.nodup_cons] at hnd
    show (if kx = k then some vx else _) = (if kx = k then some vx else _)
    by_cases he : kx = k
    · rw [if_pos he, if_pos he]
    · rw [if_neg he, if_neg he]
      exact ih hnd.2 k
  | swap x y l =>
    intro hnd k
    obtain ⟨kx, vx⟩ := x
    obtain ⟨ky, vy⟩ := y
    simp only [List.map_cons, List.nodup_cons, List.mem_cons] at hnd
    have hyx : ky ≠ kx := fun he => hnd.1 (Or.inl he)
    by_cases h1 : kx = k
    · have h2 : ky ≠ k := fun he => hyx (he.trans h1.symm)
      simp [lookupKey, h1, h2]
    · by_cases h2 : ky = k
      · simp [lookupKey, h1, h2]
      · simp [lookupKey, h1, h2]
  | trans h12 h23 ih12 ih23 =>
    intro hnd k
    rw [ih12 hnd k, ih23 (((h12.map Prod.fst).nodup_iff).mp hnd) k]

theorem sortedKeys_perm_eq {w₁ w₂ : List (String × WPackage)}
    (hperm : List.Perm w₁ w₂) : sortedKeys w₁ = sortedKeys w₂ := by
  exact @List.eq_of_perm_of_sorted String strLe _ _ _
    ((List.perm_insertionSort strLe _).trans
      ((hperm.map Prod.fst).trans (List.perm_insertionSort strLe _).symm))
    (List.sorted_insertionSort strLe _) (List.sorted_insertionSort strLe _)

theorem flattenPackages_perm_eq {w₁ w₂ : List (String × WPackage)}
    (hperm : List.Perm w₁ w₂) (hnd₁ : (w₁.map Prod.fst).Nodup) :
    flattenPackages w₁ = flattenPackages w₂ := by
  rw [flattenPackages_eq, flattenPackages_eq, sortedKeys_perm_eq hperm]
  congr 1
  apply List.map_congr_left
  intro k _
  unfold packageBlock
  rw [lookupKey_perm hperm hnd₁ k]

theorem aggTasks_perm_eq {w₁ w₂ : List (String × WPackage)}
    (hperm : List.Perm w₁ w₂) (hnd₁ : (w₁.map Prod.fst).Nodup)
    (responses : Responses) (pt : String) (today : Int) :
    aggTasks w₁ responses pt today = aggTasks w₂ responses pt today := by
  unfold aggTasks
  rw [flattenPackages_perm_eq hperm hnd₁]

theorem aggregator_plan_perm {w₁ w₂ : List (String × WPackage)}
    (hperm : List.Perm w₁ w₂) (hnd₁ : (w₁.map Prod.fst).Nodup)
    (responses : Responses) (pt : String) (today now : Int) :
    (aggregator_node w₁ responses pt today now).1 =
      (aggregator_node w₂ responses pt today now).1 := by
  unfold aggregator_node
  by_cases h1 : w₁ = []
  · subst h1
    rw [List.Perm.nil_eq hperm]
  · have h2 : w₂ ≠ [] := by
      intro he
      subst he
      exact h1 (List.Perm.eq_nil hperm)
    rw [if_neg h1, if_neg h2]
    simp only
    rw [aggTasks_perm_eq hperm hnd₁ responses pt today]

/-! ### Dependence on the clock -/

/-- Erase the only timestamp field of an aggregated plan. -/
def stripTime (p : AggregatedPlan) : AggregatedPlan :=
  { p with project_info := { p.project_info with generated_at := 0 } }

theorem aggregator_plan_now_independent (w : List (String × WPackage))
    (responses : Responses) (pt : String) (today n₁ n₂ : Int) :
    ((aggregator_node w responses pt today n₁).1).map stripTime =
      ((aggregator_node w responses pt today n₂).1).map stripTime := by
  unfold aggregator_node
  by_cases h : w = []
  · rw [if_pos h, if_pos h]
  · rw [if_neg h, if_neg h]
    rfl

theorem aggregator_plan_today_independent_high_level (w : List (String × WPackage))
    (responses : Responses) (pt : String) (hpt : pt ≠ "detailed") (t₁ t₂ now : Int) :
    (aggregator_node w responses pt t₁ now).1 =
      (aggregator_node w responses pt t₂ now).1 := by
  unfold aggregator_node
  by_cases h : w = []
  · rw [if_pos h, if_pos h]
  · rw [if_neg h, if_neg h]
    have : aggTasks w responses pt t₁ = aggTasks w responses pt t₂ := by
      unfold aggTasks
      rw [if_neg hpt, if_neg hpt]
    simp only [this]

/-! ### The in-place mutation of the worker outputs -/

theorem sliceWalk_fst (w : List (String × WPackage)) :
    ∀ (keys : List String) (finalTasks : List PlanTask),
      (sliceWalk finalTasks w keys).map Prod.fst = keys := by
  intro keys
  induction keys with
  | nil => intro finalTasks; rfl
  | cons k ks ih =>
    intro finalTasks
    simp only [sliceWalk, List.map_cons, ih]

theorem sliceWalk_flatten (w : List (String × WPackage)) :
    ∀ (keys : List String) (finalTasks : List PlanTask),
      finalTasks.length = (keys.map (fun k => (packageBlock k w).length)).sum →
      ((sliceWalk finalTasks w keys).map Prod.snd).flatten = finalTasks := by
  intro keys
  induction keys with
  | nil =>
    intro finalTasks hlen
    simp only [List.map_nil, List.sum_nil] at hlen
    simp [sliceWalk, List.eq_nil_of_length_eq_zero hlen]
  | cons k ks ih =>
    intro finalTasks hlen
    simp only [List.map_cons, List.sum_cons] at hlen
    simp only [sliceWalk, List.map_cons, List.flatten_cons]
    rw [ih (finalTasks.drop (packageBlock k w).length) (by
      rw [List.length_drop]
      omega)]
    exact List.take_append_drop _ _

theorem sliceWalk_entry_length (w : List (String × WPackage)) :
    ∀ (keys : List String) (finalTasks : List PlanTask),
      finalTasks.length = (keys.map (fun k => (packageBlock k w).length)).sum →
      ∀ e ∈ sliceWalk finalTasks w keys, e.2.length = (packageBlock e.1 w).length := by
  intro keys
  induction keys with
  | nil => intro finalTasks _ e he; simp [sliceWalk] at he
  | cons k ks ih =>
    intro finalTasks hlen e he
    simp only [List.map_cons, List.sum_cons] at hlen
    simp only [sliceWalk, List.mem_cons] at he
    rcases he with he | he
    · subst he
      simp only [List.length_take]
      omega
    · exact ih (finalTasks.drop (packageBlock k w).length)
        (by rw [List.length_drop]; omega) e he

theorem lookupKey_map_entry {β γ : Type} (g : String → β → γ) :
    ∀ (w : List (String × β)) (k : String),
      lookupKey k (w.map (fun kp => (kp.1, g kp.1 kp.2))) = (lookupKey k w).map (g k) := by
  intro w k
  induction w with
  | nil => rfl
  | cons kp rest ih =>
    obtain ⟨k', v⟩ := kp
    by_cases h : k' = k
    · subst h; simp [lookupKey]
    · simp [lookupKey, h, ih]

theorem lookupKey_isSome_of_mem_keys {β : Type} :
    ∀ (w : List (String × β)) (k : String), k ∈ w.map Prod.fst →
      ∃ v, lookupKey k w = some v := by
  intro w k
  induction w with
  | nil => intro h; simp at h
  | cons kp rest ih =>
    intro h
    obtain ⟨k', v⟩ := kp
    by_cases he : k' = k
    · exact ⟨v, by simp [lookupKey, he]⟩
    · simp only [List.map_cons, List.mem_cons] at h
      rcases h with h | h
      · exact absurd h.symm he
      · exact (ih h).imp (fun q hq => by simp [lookupKey, he, hq])

theorem map_fst_apply_eq_map_snd {γ : Type} (F : String → γ) :
    ∀ (l : List (String × γ)), (∀ e ∈ l, F e.1 = e.2) →
      (l.map Prod.fst).map F = l.map Prod.snd := by
  intro l
  induction l with
  | nil => intro _; rfl
  | cons e rest ih =>
    intro h
    simp only [List.map_cons]
    rw [h e (List.mem_cons_self _ _), ih (fun q hq => h q (List.mem_cons_of_mem _ hq))]

theorem postOutputs_fst (w : List (String × WPackage)) (final : List PlanTask) :
    (postOutputs w final).map Prod.fst = w.map Prod.fst := by
  unfold postOutputs
  rw [List.map_map]
  rfl

theorem flattenPackages_length_sorted (w : List (String × WPackage)) :
    (flattenPackages w).length =
      ((sortedKeys w).map (fun k => (packageBlock k w).length)).sum := by
  rw [flattenPackages_eq, List.length_flatten, List.map_map]
  rfl

theorem aggTasks_length_eq_flatten (w : List (String × WPackage))
    (responses : Responses) (pt : String) (today : Int) :
    (aggTasks w responses pt today).length = (flattenPackages w).length := by
  unfold aggTasks
  by_cases h : pt = "detailed"
  · rw [if_pos h, schedRun_length, add_task_identifiers_length]
  · rw [if_neg h, add_task_identifiers_length]

theorem mem_of_lookupKey_eq_some {β : Type} :
    ∀ {gs : List (String × β)} {k : String} {v : β},
      lookupKey k gs = some v → (k, v) ∈ gs := by
  intro gs
  induction gs with
  | nil => intro k v h; cases h
  | cons kv rest ih =>
    intro k v h
    obtain ⟨k', v'⟩ := kv
    by_cases he : k' = k
    · subst he
      rw [lookupKey, if_pos rfl] at h
      injection h with h
      subst h
      exact List.mem_cons_self _ _
    · rw [lookupKey, if_neg he] at h
      exact List.mem_cons_of_mem _ (ih h)

theorem postOutputs_lookup (w : List (String × WPackage)) (final : List PlanTask)
    (k : String) :
    lookupKey k (postOutputs w final) =
      (lookupKey k w).map (fun p =>
        { p with tasks :=
            (lookupKey k (sliceWalk final w (sortedKeys w))).getD p.tasks }) := by
  unfold postOutputs
  exact lookupKey_map_entry
    (fun k0 p => { p with tasks :=
      (lookupKey k0 (sliceWalk final w (sortedKeys w))).getD p.tasks }) w k

theorem postOutputs_flatten (w : List (String × WPackage)) (final : List PlanTask)
    (hnd : (w.map Prod.fst).Nodup)
    (hlen : final.length = ((sortedKeys w).map (fun k => (packageBlock k w).length)).sum) :
    ((sortedKeys w).map (fun k =>
      ((lookupKey k (postOutputs w final)).map WPackage.tasks).getD [])).flatten = final := by
  have hndsorted : (sortedKeys w).Nodup :=
    ((List.perm_insertionSort strLe _).nodup_iff).mpr hnd
  have hslf : (sliceWalk final w (sortedKeys w)).map Prod.fst = sortedKeys w :=
    sliceWalk_fst w _ final
  have hndsl : ((sliceWalk final w (sortedKeys w)).map Prod.fst).Nodup := by
    rw [hslf]; exact hndsorted
  have hF : ∀ e ∈ sliceWalk final w (sortedKeys w),
      ((lookupKey e.1 (postOutputs w final)).map WPackage.tasks).getD [] = e.2 := by
    intro e he
    have hk1 : e.1 ∈ sortedKeys w := by
      rw [← hslf]; exact List.mem_map_of_mem _ he
    have hk2 : e.1 ∈ w.map Prod.fst :=
      ((List.perm_insertionSort strLe _).mem_iff).mp hk1
    obtain ⟨p, hp⟩ := lookupKey_isSome_of_mem_keys w e.1 hk2
    have hps : lookupKey e.1 (sliceWalk final w (sortedKeys w)) = some e.2 := by
      apply lookupKey_of_mem_nodup hndsl
      obtain ⟨e1, e2⟩ := e
      exact he
    rw [postOutputs_lookup, hp]
    simp [hps]
  have h1 := map_fst_apply_eq_map_snd
    (fun k => ((lookupKey k (postOutputs w final)).map WPackage.tasks).getD [])
    (sliceWalk final w (sortedKeys w)) hF
  rw [← hslf, h1]
  exact sliceWalk_flatten w (sortedKeys w) final hlen

theorem postOutputs_entry (w : List (String × WPackage)) (final : List PlanTask)
    (hnd : (w.map Prod.fst).Nodup)
    (hlen : final.length = ((sortedKeys w).map (fun k => (packageBlock k w).length)).sum)
    (k : String) (p : WPackage) (hp : lookupKey k w = some p) :
    ∃ q, lookupKey k (postOutputs w final) = some q ∧
      q.package_name = p.package_name ∧ q.task_count = p.task_count ∧
      q.tasks.length = p.tasks.length := by
  have hndsorted : (sortedKeys w).Nodup :=
    ((List.perm_insertionSort strLe _).nodup_iff).mpr hnd
  have hslf : (sliceWalk final w (sortedKeys w)).map Prod.fst = sortedKeys w :=
    sliceWalk_fst w _ final
  refine ⟨{ p with tasks :=
    (lookupKey k (sliceWalk final w (sortedKeys w))).getD p.tasks }, ?_, rfl, rfl, ?_⟩
  · rw [postOutputs_lookup, hp]
    rfl
  · have hk2 : k ∈ w.map Prod.fst := mem_keys_of_lookupKey_eq_some hp
    have hk1 : k ∈ sortedKeys w :=
      ((List.perm_insertionSort strLe _).mem_iff).mpr hk2
    have hkm : k ∈ (sliceWalk final w (sortedKeys w)).map Prod.fst := by
      rw [hslf]; exact hk1
    obtain ⟨s, hs⟩ := lookupKey_isSome_of_mem_keys _ k hkm
    have hmem : (k, s) ∈ sliceWalk final w (sortedKeys w) := mem_of_lookupKey_eq_some hs
    have hslen := sliceWalk_entry_length w (sortedKeys w) final hlen (k, s) hmem
    have hblock : (packageBlock k w).length = p.tasks.length := by
      unfold packageBlock
      rw [hp]
      simp
    show ((lookupKey k (sliceWalk final w (sortedKeys w))).getD p.tasks).length = _
    rw [hs, Option.getD_some]
    exact hslen.trans hblock

/-! ### JSON values and `json.loads` (used by the response extractor)

`json.loads` is modelled as a total recursive-descent parser over the
character list, returning `none` where CPython raises `JSONDecodeError`.
The recursion is fuelled so every concrete run reduces inside the kernel.
Deliberate simplifications, none observable by the claims: duplicate
object keys keep the first occurrence rather than the last, and a
`\uXXXX` escape denoting a lone surrogate decodes to U+0000. -/

inductive JValue where
  | null
  | bool (b : Bool)
  | num (lexeme : String)
  | str (s : String)
  | arr (xs : List JValue)
  | obj (fields : List (String × JValue))
deriving Inhabited

/-- The opening curly bracket. -/
def lbrace : Char := Char.ofNat 123

/-- The closing curly bracket. -/
def rbrace : Char := Char.ofNat 125

/-- The backquote character of a code fence. -/
def btick : Char := Char.ofNat 96

/-- JSON inter-token whitespace (strict mode). -/
def jWs (c : Char) : Bool := c = ' ' || c = '\t' || c = '\n' || c = '\r'

/-- Skip JSON whitespace. -/
def skipJWs (cs : List Char) : List Char := cs.dropWhile jWs

/-- Value of a hexadecimal digit. -/
def hexVal (c : Char) : Option Nat :=
  if 48 ≤ c.toNat ∧ c.toNat ≤ 57 then some (c.toNat - 48)
  else if 97 ≤ c.toNat ∧ c.toNat ≤ 102 then some (c.toNat - 87)
  else if 65 ≤ c.toNat ∧ c.toNat ≤ 70 then some (c.toNat - 55)
  else none

/-- Decoded character of a single-letter string escape. -/
def escChar (c : Char) : Option Char :=
  if c = '"' then some '"'
  else if c = '\\' then some '\\'
  else if c = '/' then some '/'
  else if c = 'b' then some (Char.ofNat 8)
  else if c = 'f' then some (Char.ofNat 12)
  else if c = 'n' then some '\n'
  else if c = 'r' then some '\r'
  else if c = 't' then some '\t'
  else none

/-- Body of a JSON string after the opening quote: decoded characters and
the remainder after the closing quote.  Control characters are rejected
as in strict mode. -/
def parseJStrBody : List Char → Option (List Char × List Char)
  | [] => none
  | c :: rest =>
    if c = '"' then some ([], rest)
    else if c = '\\' then
      match rest with
      | [] => none
      | e :: rest2 =>
        if e = 'u' then
          match rest2 with
          | h1 :: h2 :: h3 :: h4 :: rest3 =>
            match hexVal h1, hexVal h2, hexVal h3, hexVal h4 with
            | some a, some b, some c', some d =>
              (parseJStrBody rest3).map
                (fun p => (Char.ofNat (((a * 16 + b) * 16 + c') * 16 + d) :: p.1, p.2))
            | _, _, _, _ => none
          | _ => none
        else
          match escChar e with
          | some ch => (parseJStrBody rest2).map (fun p => (ch :: p.1, p.2))
          | none => none
    else if c.toNat < 32 then none
    else (parseJStrBody rest).map (fun p => (c :: p.1, p.2))

/-- Lexing of a JSON number (the `NUMBER_RE` regular expression of the
CPython decoder): optional sign, integer part without leading zeros,
optional fraction, optional exponent.  Returns the lexeme and the
remainder. -/
def parseNumber (cs : List Char) : Option (String × List Char) :=
  let sp : List Char × List Char :=
    match cs with
    | c :: r => if c = '-' then (['-'], r) else ([], cs)
    | [] => ([], cs)
  match sp.2 with
  | [] => none
  | c :: r =>
    if c = '0' ∨ (c.isDigit = true) then
      let ip : List Char × List Char :=
        if c = '0' then (['0'], r)
        else (c :: r.takeWhile Char.isDigit, r.dropWhile Char.isDigit)
      let fp : List Char × List Char :=
        match ip.2 with
        | d :: r2 =>
          if d = '.' then
            let ds := r2.takeWhile Char.isDigit
            if ds.isEmpty then ([], ip.2)
            else ('.' :: ds, r2.dropWhile Char.isDigit)
          else ([], ip.2)
        | [] => ([], ip.2)
      let ep : List Char × List Char :=
        match fp.2 with
        | e :: r3 =>
          if e = 'e' ∨ e = 'E' then
            let sg : List Char × List Char :=
              match r3 with
              | s :: r4 => if s = '+' ∨ s = '-' then ([s], r4) else ([], r3)
              | [] => ([], r3)
            let ds := sg.2.takeWhile Char.isDigit
            if ds.isEmpty then ([], fp.2)
            else (e :: (sg.1 ++ ds), sg.2.dropWhile Char.isDigit)
          else ([], fp.2)
        | [] => ([], fp.2)
      some (String.mk (sp.1 ++ ip.1 ++ fp.1 ++ ep.1), ep.2)
    else none

/-- Parser modes: a value, array elements (`arr0` right after `[` where
`]` is allowed, `arr1` where an element is required), object members
(`obj0`/`obj1` alike). -/
inductive PMode where
  | value
  | arr0
  | arr1
  | obj0
  | obj1

/-- Parser results per mode. -/
inductive PRes where
  | v (j : JValue)
  | l (xs : List JValue)
  | m (fields : List (String × JValue))

/-- The fuelled recursive-descent JSON parser. -/
def parseF : Nat → PMode → List Char → Option (PRes × List Char)
  | 0, _, _ => none
  | fuel + 1, PMode.value, cs =>
    match skipJWs cs with
    | [] => none
    | c :: rest =>
      if c = 'n' then
        match rest with
        | 'u' :: 'l' :: 'l' :: r => some (.v .null, r)
        | _ => none
      else if c = 't' then
        match rest with
        | 'r' :: 'u' :: 'e' :: r => some (.v (.bool true), r)
        | _ => none
      else if c = 'f' then
        match rest with
        | 'a' :: 'l' :: 's' :: 'e' :: r => some (.v (.bool false), r)
        | _ => none
      else if c = 'N' then
        match rest with
        | 'a' :: 'N' :: r => some (.v (.num "NaN"), r)
        | _ => none
      else if c = 'I' then
        match rest with
        | 'n' :: 'f' :: 'i' :: 'n' :: 'i' :: 't' :: 'y' :: r =>
          some (.v (.num "Infinity"), r)
        | _ => none
      else if c = '-' then
        match rest with
        | 'I' :: 'n' :: 'f' :: 'i' :: 'n' :: 'i' :: 't' :: 'y' :: r =>
          some (.v (.num "-Infinity"), r)
        | _ =>
          match parseNumber (c :: rest) with
          | some p => some (.v (.num p.1), p.2)
          | none => none
      else if c = '"' then
        match parseJStrBody rest with
        | some p => some (.v (.str (String.mk p.1)), p.2)
        | none => none
      else if c = '[' then
        match parseF fuel PMode.arr0 rest with
        | some (.l xs, r) => some (.v (.arr xs), r)
        | _ => none
      else if c = lbrace then
        match parseF fuel PMode.obj0 rest with
        | some (.m fs, r) => some (.v (.obj fs), r)
        | _ => none
      else
        match parseNumber (c :: rest) with
        | some p => some (.v (.num p.1), p.2)
        | none => none
  | fuel + 1, PMode.arr0, cs =>
    match skipJWs cs with
    | [] => none
    | c :: rest =>
      if c = ']' then some (.l [], rest)
      else
        match parseF fuel PMode.arr1 cs with
        | some (.l xs, r) => some (.l xs, r)
        | _ => none
  | fuel + 1, PMode.arr1, cs =>
    match parseF fuel PMode.value cs with
    | some (.v v, r1) =>
      match skipJWs r1 with
      | [] => none
      | c2 :: r2 =>
        if c2 = ',' then
          match parseF fuel PMode.arr1 r2 with
          | some (.l xs, r3) => some (.l (v :: xs), r3)
          | _ => none
        else if c2 = ']' then some (.l [v], r2)
        else none
    | _ => none
  | fuel + 1, PMode.obj0, cs =>
    match skipJWs cs with
    | [] => none
    | c :: rest =>
      if c = rbrace then some (.m [], rest)
      else
        match parseF fuel PMode.obj1 cs with
        | some (.m fs, r) => some (.m fs, r)
        | _ => none
  | fuel + 1, PMode.obj1, cs =>
    match skipJWs cs with
    | [] => none
    | c :: rest =>
      if c = '"' then
        match parseJStrBody rest with
        | some pk =>
          match skipJWs pk.2 with
          | [] => none
          | c2 :: r2 =>
            if c2 = ':' then
              match parseF fuel PMode.value r2 with
              | some (.v v, r3) =>
                match skipJWs r3 with
                | [] => none
                | c3 :: r4 =>
                  if c3 = ',' then
                    match parseF fuel PMode.obj1 r4 with
                    | some (.m fs, r5) => some (.m ((String.mk pk.1, v) :: fs), r5)
                    | _ => none
                  else if c3 = rbrace then some (.m [(String.mk pk.1, v)], r4)
                  else none
              | _ => none
            else none
        | none => none
      else none

/-- `json.loads`: parse one value, then only whitespace may remain. -/
def json_loads (s : String) : Option JValue :=
  match parseF (4 * s.data.length + 16) PMode.value s.data with
  | some (PRes.v j, rest) => if (skipJWs rest).isEmpty then some j else none
  | _ => none

example : json_loads "null" = some JValue.null := rfl
example : json_loads " \x7b\"tasks\": []\x7d " =
    some (JValue.obj [("tasks", JValue.arr [])]) := rfl
example : json_loads "\x7b\"a\": [1, -2.5e3, \"x\"], \"b\": true\x7d" =
    some (JValue.obj [("a", JValue.arr [JValue.num "1", JValue.num "-2.5e3",
      JValue.str "x"]), ("b", JValue.bool true)]) := rfl
example : json_loads "\x7b\"tasks\": [" = none := rfl
example : json_loads "hello" = none := rfl
example : json_loads "" = none := rfl
example : json_loads "1 2" = none := rfl

/-! ### extract_json_from_response (src/nodes/workers.py lines 13-33 and
src/nodes/orchestrator.py lines 12-32) -/

/-- Python regex `\s` whitespace (the characters relevant to ASCII
input). -/
def reWs (c : Char) : Bool :=
  c = ' ' || c = '\t' || c = '\n' || c = '\r' || c = Char.ofNat 11 || c = Char.ofNat 12

/-- Python `str.strip()` on the whitespace range above. -/
def pyStrip (cs : List Char) : List Char :=
  ((cs.dropWhile reWs).reverse.dropWhile reWs).reverse

/-- Recognise a ``` fence at the head, returning what follows it. -/
def dropFence : List Char → Option (List Char)
  | a :: b :: c :: r =>
    if a = btick ∧ b = btick ∧ c = btick then some r else none
  | _ => none

/-- Split at the first closing fence: the text before it and the text
after it. -/
def findClose : List Char → Option (List Char × List Char)
  | [] => none
  | c :: rest =>
    match dropFence (c :: rest) with
    | some r => some ([], r)
    | none => (findClose rest).map (fun p => (c :: p.1, p.2))

/-- All captures of `re.findall(r'```(?:json)?\s*([\s\S]*?)```', text)`:
at an opening fence, skip an optional `json` tag and whitespace, capture
lazily up to the next fence; a fence with no closing fence matches
nothing and scanning resumes one character later. -/
def findFences : Nat → List Char → List (List Char)
  | 0, _ => []
  | fuel + 1, cs =>
    match cs with
    | [] => []
    | _ :: rest =>
      match dropFence cs with
      | some afterOpen =>
        let afterTag :=
          match afterOpen with
          | 'j' :: 's' :: 'o' :: 'n' :: r => r
          | _ => afterOpen
        let body := afterTag.dropWhile reWs
        match findClose body with
        | some p => p.1 :: findFences fuel p.2
        | none => findFences fuel rest
      | none => findFences fuel rest

/-- Try `json.loads` on each fenced block (stripped), first success
wins. -/
def tryBlocks : List (List Char) → Option JValue
  | [] => none
  | b :: rest =>
    match json_loads (String.mk (pyStrip b)) with
    | some j => some j
    | none => tryBlocks rest

/-- `response.find('{')`. -/
def firstIdxOf (c : Char) (cs : List Char) : Option Nat := cs.findIdx? (· = c)

/-- `response.rfind('}')`. -/
def lastIdxOf (c : Char) (cs : List Char) : Option Nat :=
  (cs.reverse.findIdx? (· = c)).map (fun i => cs.length - 1 - i)

/-- The span `response[start:end+1]` from the first `{` to the last `}`,
when both exist. -/
def braceSpan (s : String) : Option String :=
  match firstIdxOf lbrace s.data, lastIdxOf rbrace s.data with
  | some st, some en => some (String.mk ((s.data.drop st).take (en + 1 - st)))
  | _, _ => none

/-- The empty structure returned by the workers' extractor. -/
def emptyTasksObj : JValue := JValue.obj [("tasks", JValue.arr [])]

/-- `extract_json_from_response` from `workers.py`: first fenced block
that parses, else the parse of the first-`{`-to-last-`}` span, else
`{"tasks": []}`; never an exception. -/
def extract_json_from_response (response : String) : JValue :=
  match tryBlocks (findFences response.data.length response.data) with
  | some j => j
  | none =>
    match braceSpan response with
    | some sub =>
      match json_loads sub with
      | some j => j
      | none => emptyTasksObj
    | none => emptyTasksObj

/-- The same extractor as defined in `orchestrator.py`, whose only
difference is the empty default `{}`. -/
def extract_json_from_response_orchestrator (response : String) : JValue :=
  match tryBlocks (findFences response.data.length response.data) with
  | some j => j
  | none =>
    match braceSpan response with
    | some sub =>
      match json_loads sub with
      | some j => j
      | none => JValue.obj []
    | none => JValue.obj []

example :
    extract_json_from_response
      "Sure! Here is the plan:\n```json\n\x7b\"tasks\": [\x7b\"task_name\": \"dig\"\x7d]\x7d\n```\nHope this helps." =
    JValue.obj [("tasks", JValue.arr [JValue.obj [("task_name", JValue.str "dig")]])] := rfl
example :
    extract_json_from_response "\x7b\"tasks\": []\x7d extra prose" = emptyTasksObj := by
  rfl
example :
    extract_json_from_response "no structured content at all" = emptyTasksObj := rfl
example :
    extract_json_from_response "```json\n\x7b\"tasks\": [trunca" = emptyTasksObj := rfl
example :
    extract_json_from_response_orchestrator "nothing here" = JValue.obj [] := rfl

/-! ### process_single_worker and category_worker_node
(src/nodes/workers.py lines 36-121)

The generative call `get_llm().invoke(prompt)` is the `oracle` parameter:
`.ok text` is a normal reply, `.error msg` an exception raised inside the
`try` block.  Thread-pool completion order is a permutation of the
submission order, passed explicitly. -/

structure WorkerInfo where
  package_name : Option String := none
  prompt : Option String := none
deriving DecidableEq, Inhabited

structure PackageResult where
  worker_key : String
  package_name : String
  tasks : JValue
  task_count : Nat
  success : Bool
  error : Option String := none
deriving Inhabited

/-- The value stored per key into `state["worker_outputs"]` (the
`success`/`error` markers are dropped there). -/
structure WOutput where
  package_name : String
  tasks : JValue
  task_count : Nat
deriving Inhabited

/-- `result.get("tasks", [])`: an `AttributeError` when the extracted
value is not a dict. -/
def pyGetTasks (result : JValue) : Except String JValue :=
  match result with
  | .obj fields => .ok ((lookupKey "tasks" fields).getD (.arr []))
  | _ => .error "AttributeError: object has no attribute get"

/-- Python `len`, raising `TypeError` on unsized values. -/
def pyLen (v : JValue) : Except String Nat :=
  match v with
  | .arr xs => .ok xs.length
  | .str s => .ok s.data.length
  | .obj fields => .ok fields.length
  | _ => .error "TypeError: object has no len"

/-- `process_single_worker`: one isolated generation call; any exception
becomes a `success=False` record with a 50-character error and no
tasks. -/
def process_single_worker (oracle : String → Except String String)
    (worker_key : String) (worker_info : WorkerInfo) : PackageResult :=
  let package_name := worker_info.package_name.getD worker_key
  let prompt := worker_info.prompt.getD ""
  match oracle prompt with
  | .error e =>
    { worker_key := worker_key, package_name := package_name, tasks := .arr [],
      task_count := 0, success := false, error := some (String.mk (e.data.take 50)) }
  | .ok response =>
    match pyGetTasks (extract_json_from_response response) with
    | .error e =>
      { worker_key := worker_key, package_name := package_name, tasks := .arr [],
        task_count := 0, success := false, error := some (String.mk (e.data.take 50)) }
    | .ok tasks =>
      match pyLen tasks with
      | .error e =>
        { worker_key := worker_key, package_name := package_name, tasks := .arr [],
          task_count := 0, success := false, error := some (String.mk (e.data.take 50)) }
      | .ok n =>
        { worker_key := worker_key, package_name := package_name, tasks := tasks,
          task_count := n, success := true, error := none }

/-- What `category_worker_node` stores for one completed future. -/
def storeOutput (r : PackageResult) : WOutput :=
  { package_name := r.package_name, tasks := r.tasks, task_count := r.task_count }

/-- `category_worker_node`: every submitted worker runs, results are
collected in completion order (the `completion` list, a permutation of
`worker_prompts`) into the keyed output mapping. -/
def category_worker_node (oracle : String → Except String String)
    (completion : List (String × WorkerInfo)) : List (String × WOutput) :=
  completion.map (fun kw =>
    ((process_single_worker oracle kw.1 kw.2).worker_key,
      storeOutput (process_single_worker oracle kw.1 kw.2)))

/-- A string field of a raw task dict. -/
def jStrField (fields : List (String × JValue)) (k : String) : Option String :=
  match lookupKey k fields with
  | some (JValue.str s) => some s
  | _ => none

/-- View of a raw JSON task dict as the aggregator reads it (the raw date
strings of detailed-mode content are not modelled: the aggregator only
overwrites them). -/
def taskOfFields (fields : List (String × JValue)) : PlanTask :=
  { phase_name := jStrField fields "phase_name"
    activity_name := jStrField fields "activity_name"
    task_name := jStrField fields "task_name"
    task_duration := jStrField fields "task_duration"
    task_id := jStrField fields "task_id"
    predecessor := jStrField fields "predecessor"
    successor := jStrField fields "successor"
    dependency_type := jStrField fields "dependency_type"
    task_start_date := none
    task_end_date := none }

/-- Python iteration over a stored `"tasks"` value, as the aggregator's
phase-backfill loop performs it: a list yields its elements, a string its
characters, a dict its keys; anything else raises `TypeError`. -/
def pyIterE (v : JValue) : Except String (List JValue) :=
  match v with
  | .arr xs => .ok xs
  | .str s => .ok (s.data.map (fun c => JValue.str (String.mk [c])))
  | .obj fields => .ok (fields.map (fun kv => JValue.str kv.1))
  | _ => .error "TypeError: object is not iterable"

/-- One iterated element as the aggregator touches it: the loop body calls
`task.get("phase_name")`, which raises `AttributeError` unless the element
is a dict. -/
def taskOfJsonE (v : JValue) : Except String PlanTask :=
  match v with
  | .obj fields => .ok (taskOfFields fields)
  | _ => .error "AttributeError: object has no attribute get"

def mapTasksE : List JValue → Except String (List PlanTask)
  | [] => .ok []
  | v :: vs =>
    match taskOfJsonE v with
    | .error e => .error e
    | .ok t =>
      match mapTasksE vs with
      | .error e => .error e
      | .ok ts => .ok (t :: ts)

/-- A stored worker output viewed as the aggregator's package; raises
exactly when the aggregator's loop over the stored `"tasks"` value would
(a non-list value, or a list holding a non-dict element). -/
def packageOfOutputE (o : WOutput) : Except String WPackage :=
  match pyIterE o.tasks with
  | .error e => .error e
  | .ok vs =>
    match mapTasksE vs with
    | .error e => .error e
    | .ok ts =>
      .ok { package_name := some o.package_name, tasks := ts,
            task_count := o.task_count }

/-- The dispatcher's output mapping viewed as the aggregator's input;
raises if any stored package does. -/
def packagesOfOutputsE : List (String × WOutput) →
    Except String (List (String × WPackage))
  | [] => .ok []
  | kw :: rest =>
    match packageOfOutputE kw.2 with
    | .error e => .error e
    | .ok p =>
      match packagesOfOutputsE rest with
      | .error e => .error e
      | .ok ps => .ok ((kw.1, p) :: ps)

theorem process_worker_key (oracle : String → Except String String)
    (k : String) (wi : WorkerInfo) :
    (process_single_worker oracle k wi).worker_key = k := by
  cases h1 : oracle (wi.prompt.getD "") with
  | error e => simp [process_single_worker, h1]
  | ok response =>
    cases h2 : pyGetTasks (extract_json_from_response response) with
    | error e => simp [process_single_worker, h1, h2]
    | ok tasks =>
      cases h3 : pyLen tasks with
      | error e => simp [process_single_worker, h1, h2, h3]
      | ok n => simp [process_single_worker, h1, h2, h3]

theorem category_worker_node_eq (oracle : String → Except String String)
    (completion : List (String × WorkerInfo)) :
    category_worker_node oracle completion =
      completion.map (fun kw =>
        (kw.1, storeOutput (process_single_worker oracle kw.1 kw.2))) := by
  unfold category_worker_node
  apply List.map_congr_left
  intro kw _
  rw [process_worker_key]

theorem category_worker_node_length (oracle : String → Except String String)
    (completion : List (String × WorkerInfo)) :
    (category_worker_node oracle completion).length = completion.length := by
  rw [category_worker_node_eq, List.length_map]

theorem category_worker_node_lookup (oracle : String → Except String String)
    (completion : List (String × WorkerInfo)) (k : String) (wi : WorkerInfo)
    (hnd : (completion.map Prod.fst).Nodup) (hm : (k, wi) ∈ completion) :
    lookupKey k (category_worker_node oracle completion) =
      some (storeOutput (process_single_worker oracle k wi)) := by
  rw [category_worker_node_eq]
  rw [lookupKey_map_entry (fun k0 wi0 => storeOutput (process_single_worker oracle k0 wi0))
    completion k]
  rw [lookupKey_of_mem_nodup hnd hm]
  rfl

theorem process_worker_raise (oracle : String → Except String String)
    (k : String) (wi : WorkerInfo) (e : String)
    (h : oracle (wi.prompt.getD "") = .error e) :
    process_single_worker oracle k wi =
      { worker_key := k, package_name := wi.package_name.getD k, tasks := .arr [],
        task_count := 0, success := false,
        error := some (String.mk (e.data.take 50)) } := by
  simp [process_single_worker, h]

theorem process_worker_unparseable (oracle : String → Except String String)
    (k : String) (wi : WorkerInfo) (response : String)
    (h : oracle (wi.prompt.getD "") = .ok response)
    (he : extract_json_from_response response = emptyTasksObj) :
    process_single_worker oracle k wi =
      { worker_key := k, package_name := wi.package_name.getD k, tasks := .arr [],
        task_count := 0, success := true, error := none } := by
  simp [process_single_worker, h, he, emptyTasksObj, pyGetTasks, pyLen, lookupKey]

/-! ### Field views of the linked form, and locating group neighbours -/

theorem linkedForm_predecessor (ts : List PlanTask) (i : Nat) :
    (linkedForm ts i).predecessor =
      match prevSame ts i with
      | some j => some (formatT (j + 1))
      | none => (ts.getD i default).predecessor := by
  unfold linkedForm
  cases hp : prevSame ts i <;> cases hn : nextSame ts i <;>
    simp [predUpd, succUpd, idOnly]

theorem linkedForm_dependency_type (ts : List PlanTask) (i : Nat) :
    (linkedForm ts i).dependency_type =
      match prevSame ts i with
      | some _ => some "FS"
      | none => (ts.getD i default).dependency_type := by
  unfold linkedForm
  cases hp : prevSame ts i <;> cases hn : nextSame ts i <;>
    simp [predUpd, succUpd, idOnly]

theorem linkedForm_successor (ts : List PlanTask) (i : Nat) :
    (linkedForm ts i).successor =
      match nextSame ts i with
      | some j => some (formatT (j + 1))
      | none => (ts.getD i default).successor := by
  unfold linkedForm
  cases hp : prevSame ts i <;> cases hn : nextSame ts i <;>
    simp [predUpd, succUpd, idOnly]

theorem linkedForm_of_none (ts : List PlanTask) (i : Nat)
    (hp : prevSame ts i = none) (hn : nextSame ts i = none) :
    linkedForm ts i = idOnly ts i := by
  unfold linkedForm
  rw [hp, hn]

theorem prevSame_none (ts : List PlanTask) (i : Nat)
    (h : ∀ m, m < i → gkD ts m ≠ gkD ts i) : prevSame ts i = none := by
  unfold prevSame
  rw [List.filter_eq_nil_iff.mpr]
  · rfl
  · intro m hm
    simp only [beq_iff_eq]
    exact h m (List.mem_range.mp hm)

theorem nextSame_none (ts : List PlanTask) (i : Nat)
    (h : ∀ m, i < m → m < ts.length → gkD ts m ≠ gkD ts i) : nextSame ts i = none := by
  unfold nextSame
  rw [List.filter_eq_nil_iff.mpr]
  · rfl
  · intro m hm
    simp only [beq_iff_eq]
    rw [List.mem_range'] at hm
    obtain ⟨q, hq, hmq⟩ := hm
    exact h m (by omega) (by omega)

theorem prevSame_some (ts : List PlanTask) (i j : Nat)
    (hji : j < i) (hkey : gkD ts j = gkD ts i)
    (hbetween : ∀ m, j < m → m < i → gkD ts m ≠ gkD ts i) :
    prevSame ts i = some j := by
  unfold prevSame
  have hsplit : List.range i = List.range (j + 1) ++ List.range' (j + 1) (i - (j + 1)) :=
    range_split i (j + 1) (by omega)
  rw [hsplit, List.filter_append]
  have h2 : (List.range' (j + 1) (i - (j + 1))).filter
      (fun m => gkD ts m == gkD ts i) = [] := by
    rw [List.filter_eq_nil_iff]
    intro m hm
    simp only [beq_iff_eq]
    rw [List.mem_range'] at hm
    obtain ⟨q, hq, hmq⟩ := hm
    exact hbetween m (by omega) (by omega)
  rw [h2, List.append_nil, List.range_succ, List.filter_append]
  have h3 : [j].filter (fun m => gkD ts m == gkD ts i) = [j] := by
    simp [hkey]
  rw [h3, List.getLast?_concat]

theorem nextSame_some (ts : List PlanTask) (i j : Nat)
    (hij : i < j) (hj : j < ts.length) (hkey : gkD ts j = gkD ts i)
    (hbetween : ∀ m, i < m → m < j → gkD ts m ≠ gkD ts i) :
    nextSame ts i = some j := by
  unfold nextSame
  have happ := List.range'_append (i + 1) (j - (i + 1)) (ts.length - j) 1
  simp only [Nat.one_mul] at happ
  have hidx : i + 1 + (j - (i + 1)) = j := by omega
  rw [hidx] at happ
  have hlen : ts.length - (i + 1) = ts.length - j + (j - (i + 1)) := by omega
  rw [hlen, ← happ, List.filter_append]
  have h2 : (List.range' (i + 1) (j - (i + 1))).filter
      (fun m => gkD ts m == gkD ts i) = [] := by
    rw [List.filter_eq_nil_iff]
    intro m hm
    simp only [beq_iff_eq]
    rw [List.mem_range'] at hm
    obtain ⟨q, hq, hmq⟩ := hm
    exact hbetween m (by omega) (by omega)
  rw [h2, List.nil_append]
  have h3 : ts.length - j = (ts.length - j - 1) + 1 := by omega
  rw [h3, List.range'_succ, List.filter_cons, if_pos (by simp [hkey])]
  rfl

/-! ### The claims -/

/-- C6: For every input string, duration parsing extracts the first
integer found; if the (lowercased, as the code compares) string contains
"week" the result is that integer times 7 days, else if it contains
"month" the integer times 30, otherwise the integer itself with a minimum
of 1; if no integer is found (including the empty string) the result is
5 days.  In particular "2 weeks" gives 14, "1 month" 30, "5 days" 5, and
"" 5. -/
theorem claim_C6 (s : String) :
    (parse_duration "2 weeks" = 14 ∧ parse_duration "1 month" = 30 ∧
      parse_duration "5 days" = 5 ∧ parse_duration "" = 5) ∧
    (s = "" → parse_duration s = 5) ∧
    (firstDigitRun (lowerStr s).data = none → parse_duration s = 5) ∧
    (∀ run, firstDigitRun (lowerStr s).data = some run →
      (containsSub (lowerStr s).data ['w', 'e', 'e', 'k'] = true →
        parse_duration s = natOfDigitRun run * 7) ∧
      (containsSub (lowerStr s).data ['w', 'e', 'e', 'k'] = false →
        containsSub (lowerStr s).data ['m', 'o', 'n', 't', 'h'] = true →
        parse_duration s = natOfDigitRun run * 30) ∧
      (containsSub (lowerStr s).data ['w', 'e', 'e', 'k'] = false →
        containsSub (lowerStr s).data ['m', 'o', 'n', 't', 'h'] = false →
        parse_duration s = max 1 (natOfDigitRun run))) := by
  refine ⟨⟨by decide, by decide, by decide, by decide⟩, ?_, ?_, ?_⟩
  · intro h
    subst h
    decide
  · intro h
    by_cases hs : s = ""
    · subst hs; decide
    · simp [parse_duration, hs, h]
  · intro run hrun
    by_cases hs : s = ""
    · subst hs
      simp [lowerStr, firstDigitRun] at hrun
    · refine ⟨?_, ?_, ?_⟩
      · intro hweek
        simp [parse_duration, hs, hrun, hweek]
      · intro hweek hmonth
        simp [parse_duration, hs, hrun, hweek, hmonth]
      · intro hweek hmonth
        simp [parse_duration, hs, hrun, hweek, hmonth]

/-- C6 witness: the rules applied at the concrete input "3 WEEKS" (the
containment test runs on the lowercased string). -/
theorem claim_C6_witness :
    firstDigitRun (lowerStr "3 WEEKS").data = some ['3'] ∧
    containsSub (lowerStr "3 WEEKS").data ['w', 'e', 'e', 'k'] = true ∧
    parse_duration "3 WEEKS" = natOfDigitRun ['3'] * 7 :=
  ⟨by decide, by decide,
    ((claim_C6 "3 WEEKS").2.2.2 ['3'] (by decide)).1 (by decide)⟩

/-- C7: For every value of "today", the preference "Immediate" resolves
to the next Monday strictly after today (Monday maps 7 days ahead,
Wednesday 5 days ahead); "Within 1 Month" resolves to today plus 30 days
advanced to the next Monday on or after that date; any other string is
parsed as an explicit `%Y-%m-%d` date, falling back to the "Immediate"
rule on parse failure. -/
theorem claim_C7 (today : Int) (pref : String) :
    (today < calculate_project_start_date "Immediate" today ∧
      calculate_project_start_date "Immediate" today ≤ today + 7 ∧
      pyWeekday (calculate_project_start_date "Immediate" today) = 0) ∧
    (today + 30 ≤ calculate_project_start_date "Within 1 Month" today ∧
      calculate_project_start_date "Within 1 Month" today < today + 37 ∧
      pyWeekday (calculate_project_start_date "Within 1 Month" today) = 0) ∧
    (pyWeekday today = 0 → calculate_project_start_date "Immediate" today = today + 7) ∧
    (pyWeekday today = 2 → calculate_project_start_date "Immediate" today = today + 5) ∧
    (pref ≠ "Immediate" → pref ≠ "Within 1 Month" →
      (∀ d, parseDateYMD pref = some d →
        calculate_project_start_date pref today = d) ∧
      (parseDateYMD pref = none →
        calculate_project_start_date pref today =
          calculate_project_start_date "Immediate" today)) := by
  have himm : calculate_project_start_date "Immediate" today =
      today + (if (7 - pyWeekday today) % 7 = 0 then 7
               else (7 - pyWeekday today) % 7) := by
    unfold calculate_project_start_date
    rw [if_pos rfl]
  have hwm : calculate_project_start_date "Within 1 Month" today =
      (today + 30) + (7 - pyWeekday (today + 30)) % 7 := by
    unfold calculate_project_start_date
    rw [if_neg (by decide), if_pos rfl]
  refine ⟨⟨?_, ?_, ?_⟩, ⟨?_, ?_, ?_⟩, ?_, ?_, ?_⟩
  · rw [himm]; simp only [pyWeekday]; split <;> omega
  · rw [himm]; simp only [pyWeekday]; split <;> omega
  · rw [himm]; simp only [pyWeekday]; split <;> omega
  · rw [hwm]; simp only [pyWeekday]; omega
  · rw [hwm]; simp only [pyWeekday]; omega
  · rw [hwm]; simp only [pyWeekday]; omega
  · intro h
    rw [himm]
    simp only [pyWeekday] at h ⊢
    split <;> omega
  · intro h
    rw [himm]
    simp only [pyWeekday] at h ⊢
    split <;> omega
  · intro h1 h2
    constructor
    · intro d hd
      unfold calculate_project_start_date
      rw [if_neg h1, if_neg h2, hd]
    · intro hnone
      unfold calculate_project_start_date
      rw [if_neg h1, if_neg h2, hnone, if_pos rfl]

/-- C7 witness: the rules applied at the concrete day number 0
(1970-01-01, a Thursday) and the parseable preference "2024-05-06". -/
theorem claim_C7_witness :
    pyWeekday 0 = 3 ∧ parseDateYMD "2024-05-06" = some 19849 ∧
    calculate_project_start_date "2024-05-06" 0 = 19849 :=
  ⟨by decide, by decide,
    ((claim_C7 0 "2024-05-06").2.2.2.2 (by decide) (by decide)).1 19849 (by decide)⟩

/-- C2: In detailed mode, scheduling is a single forward pass in which a
task never starts earlier than the end of any earlier task of the same
phase, and a task opening a new phase (no earlier task shares its phase)
starts no earlier than the end of every task scheduled before it in any
phase. -/
theorem claim_C2 (tasks : List PlanTask) (start_date : String) (now : Int) :
    (∀ i j, i < j → j < tasks.length →
      phaseOf ((calculate_sequential_dates tasks start_date now).getD i default) =
        phaseOf ((calculate_sequential_dates tasks start_date now).getD j default) →
      endOf ((calculate_sequential_dates tasks start_date now).getD i default) ≤
        startOf ((calculate_sequential_dates tasks start_date now).getD j default)) ∧
    (∀ j, j < tasks.length →
      (∀ i, i < j →
        phaseOf ((calculate_sequential_dates tasks start_date now).getD i default) ≠
          phaseOf ((calculate_sequential_dates tasks start_date now).getD j default)) →
      ∀ i, i < j →
        endOf ((calculate_sequential_dates tasks start_date now).getD i default) ≤
          startOf ((calculate_sequential_dates tasks start_date now).getD j default)) := by
  constructor
  · intro i j hij hj hph
    exact schedRun_same_phase_le tasks _ i j hij hj hph
  · intro j hj hfirst i hi
    exact schedRun_new_phase_ge_all tasks
      { current := (parseDateYMD start_date).getD now, phase_dates := [] }
      j hj rfl hfirst i hi

/-- C2 witness: three tasks, the first two in phase "A" and the third
opening phase "B", scheduled from 2024-01-01: the second task starts at
the first one's end, and the phase-B task starts no earlier than both
ends. -/
theorem claim_C2_witness :
    (0 : Nat) < 1 ∧ (1 : Nat) < 3 ∧ (2 : Nat) < 3 ∧
    (endOf ((calculate_sequential_dates
        [{ phase_name := some "A", task_duration := some "2 days" },
         { phase_name := some "A", task_duration := some "1 week" },
         { phase_name := some "B" }] "2024-01-01" 0).getD 0 default) ≤
      startOf ((calculate_sequential_dates
        [{ phase_name := some "A", task_duration := some "2 days" },
         { phase_name := some "A", task_duration := some "1 week" },
         { phase_name := some "B" }] "2024-01-01" 0).getD 1 default)) ∧
    (endOf ((calculate_sequential_dates
        [{ phase_name := some "A", task_duration := some "2 days" },
         { phase_name := some "A", task_duration := some "1 week" },
         { phase_name := some "B" }] "2024-01-01" 0).getD 1 default) ≤
      startOf ((calculate_sequential_dates
        [{ phase_name := some "A", task_duration := some "2 days" },
         { phase_name := some "A", task_duration := some "1 week" },
         { phase_name := some "B" }] "2024-01-01" 0).getD 2 default)) :=
  ⟨by decide, by decide, by decide,
    (claim_C2 [{ phase_name := some "A", task_duration := some "2 days" },
       { phase_name := some "A", task_duration := some "1 week" },
       { phase_name := some "B" }] "2024-01-01" 0).1 0 1 (by decide) (by decide) (by decide),
    (claim_C2 [{ phase_name := some "A", task_duration := some "2 days" },
       { phase_name := some "A", task_duration := some "1 week" },
       { phase_name := some "B" }] "2024-01-01" 0).2 2 (by decide) (by decide) 1 (by decide)⟩

/-- C1: For every non-empty mapping of package results, aggregation
produces a plan whose task count is the sum of the per-package task
counts (failed packages contribute zero), and every task's `task_id` is
`T` followed by the zero-padded (width four) 1-based position in the
flattened sequence; hence all identifiers are non-empty, globally unique
and dense. -/
theorem claim_C1 (w : List (String × WPackage)) (responses : Responses)
    (plan_type : String) (today now : Int)
    (hne : w ≠ []) (hnd : (w.map Prod.fst).Nodup) :
    ∃ plan : AggregatedPlan,
      (aggregator_node w responses plan_type today now).1 = some plan ∧
      plan.tasks.length = (w.map (fun kp => kp.2.tasks.length)).sum ∧
      plan.total_tasks = plan.tasks.length ∧
      (∀ i, i < plan.tasks.length →
        (plan.tasks.getD i default).task_id = some (formatT (i + 1))) ∧
      (∀ i j, i < plan.tasks.length → j < plan.tasks.length → i ≠ j →
        (plan.tasks.getD i default).task_id ≠ (plan.tasks.getD j default).task_id) ∧
      (∀ i, i < plan.tasks.length → (plan.tasks.getD i default).task_id ≠ some "") := by
  unfold aggregator_node
  rw [if_neg hne]
  refine ⟨_, rfl, ?_, rfl, ?_, ?_, ?_⟩
  · exact aggTasks_length w responses plan_type today hnd
  · intro i hi
    apply aggTasks_task_id
    rw [← aggTasks_length_eq_flatten w responses plan_type today]
    exact hi
  · intro i j hi hj hij
    rw [aggTasks_task_id w responses plan_type today i
        (by rw [← aggTasks_length_eq_flatten w responses plan_type today]; exact hi),
      aggTasks_task_id w responses plan_type today j
        (by rw [← aggTasks_length_eq_flatten w responses plan_type today]; exact hj)]
    intro he
    injection he with he
    have h2 := formatT_injective he
    exact hij (by omega)
  · intro i hi
    rw [aggTasks_task_id w responses plan_type today i
        (by rw [← aggTasks_length_eq_flatten w responses plan_type today]; exact hi)]
    intro he
    injection he with he
    exact formatT_ne_empty (i + 1) he

/-- C1 witness: three packages (one of them failed with no tasks)
aggregate to three tasks carrying dense identifiers. -/
theorem claim_C1_witness :
    ([("b", { package_name := some "B", tasks := [{ task_name := some "t1" }] }),
      ("a", { package_name := some "A", tasks := [{ task_name := some "t2" }, {}] }),
      ("f", { package_name := some "F", tasks := [] })] :
        List (String × WPackage)) ≠ [] ∧
    ∃ plan : AggregatedPlan,
      (aggregator_node
        [("b", { package_name := some "B", tasks := [{ task_name := some "t1" }] }),
         ("a", { package_name := some "A", tasks := [{ task_name := some "t2" }, {}] }),
         ("f", { package_name := some "F", tasks := [] })]
        {} "high_level" 0 0).1 = some plan ∧
      plan.tasks.length =
        (([("b", { package_name := some "B", tasks := [{ task_name := some "t1" }] }),
           ("a", { package_name := some "A", tasks := [{ task_name := some "t2" }, {}] }),
           ("f", { package_name := some "F", tasks := [] })] :
            List (String × WPackage)).map (fun kp => kp.2.tasks.length)).sum ∧
      plan.total_tasks = plan.tasks.length ∧
      (∀ i, i < plan.tasks.length →
        (plan.tasks.getD i default).task_id = some (formatT (i + 1))) ∧
      (∀ i j, i < plan.tasks.length → j < plan.tasks.length → i ≠ j →
        (plan.tasks.getD i default).task_id ≠ (plan.tasks.getD j default).task_id) ∧
      (∀ i, i < plan.tasks.length → (plan.tasks.getD i default).task_id ≠ some "") :=
  ⟨by decide,
    claim_C1
      [("b", { package_name := some "B", tasks := [{ task_name := some "t1" }] }),
       ("a", { package_name := some "A", tasks := [{ task_name := some "t2" }, {}] }),
       ("f", { package_name := some "F", tasks := [] })]
      {} "high_level" 0 0 (by decide) (by decide)⟩

/-- C5: In detailed mode only, tasks are grouped by the
(phase_name, activity_name) key; within a group, consecutive members are
linked predecessor to successor with dependency type "FS": a member with
no earlier same-key task keeps its original predecessor and dependency
type, a member with no later same-key task keeps its original successor,
and a task alone in its group is changed only by the identifier
assignment; outside detailed mode only identifiers are assigned. -/
theorem claim_C5 (ts : List PlanTask) (pt : String) :
    (pt ≠ "detailed" → ∀ i, i < ts.length →
      (add_task_identifiers ts pt).getD i default =
        { ts.getD i default with task_id := some (formatT (i + 1)) }) ∧
    (∀ i j, i < j → j < ts.length → gkD ts i = gkD ts j →
      (∀ k, k < j → i < k → gkD ts k ≠ gkD ts j) →
      ((add_task_identifiers ts "detailed").getD j default).predecessor =
          some (formatT (i + 1)) ∧
        ((add_task_identifiers ts "detailed").getD j default).dependency_type =
          some "FS" ∧
        ((add_task_identifiers ts "detailed").getD i default).successor =
          some (formatT (j + 1))) ∧
    (∀ j, j < ts.length → (∀ i, i < j → gkD ts i ≠ gkD ts j) →
      ((add_task_identifiers ts "detailed").getD j default).predecessor =
          (ts.getD j default).predecessor ∧
        ((add_task_identifiers ts "detailed").getD j default).dependency_type =
          (ts.getD j default).dependency_type) ∧
    (∀ i, i < ts.length → (∀ j, j < ts.length → i < j → gkD ts j ≠ gkD ts i) →
      ((add_task_identifiers ts "detailed").getD i default).successor =
        (ts.getD i default).successor) ∧
    (∀ i, i < ts.length → (∀ j, j < ts.length → j ≠ i → gkD ts j ≠ gkD ts i) →
      (add_task_identifiers ts "detailed").getD i default =
        { ts.getD i default with task_id := some (formatT (i + 1)) }) := by
  refine ⟨?_, ?_, ?_, ?_, ?_⟩
  · intro hpt i hi
    rw [add_task_identifiers_other ts pt hpt, assignIdsFrom_getD 0 ts i hi, Nat.zero_add]
  · intro i j hij hj hkey hbet
    have hi : i < ts.length := lt_trans hij hj
    have hprev : prevSame ts j = some i :=
      prevSame_some ts j i hij hkey (fun m h1 h2 => hbet m h2 h1)
    have hnext : nextSame ts i = some j :=
      nextSame_some ts i j hij hj hkey.symm
        (fun m h1 h2 => by rw [hkey]; exact hbet m h2 h1)
    refine ⟨?_, ?_, ?_⟩
    · rw [add_task_identifiers_detailed_getD ts j hj, linkedForm_predecessor, hprev]
    · rw [add_task_identifiers_detailed_getD ts j hj, linkedForm_dependency_type, hprev]
    · rw [add_task_identifiers_detailed_getD ts i hi, linkedForm_successor, hnext]
  · intro j hj hfirst
    have hprev : prevSame ts j = none := prevSame_none ts j hfirst
    constructor
    · rw [add_task_identifiers_detailed_getD ts j hj, linkedForm_predecessor, hprev]
    · rw [add_task_identifiers_detailed_getD ts j hj, linkedForm_dependency_type, hprev]
  · intro i hi hlast
    have hnext : nextSame ts i = none :=
      nextSame_none ts i (fun m h1 h2 => hlast m h2 h1)
    rw [add_task_identifiers_detailed_getD ts i hi, linkedForm_successor, hnext]
  · intro i hi huniq
    have hprev : prevSame ts i = none :=
      prevSame_none ts i (fun m hm => huniq m (lt_trans hm hi) (Nat.ne_of_lt hm))
    have hnext : nextSame ts i = none :=
      nextSame_none ts i (fun m h1 h2 => huniq m h2 (Nat.ne_of_gt h1))
    rw [add_task_identifiers_detailed_getD ts i hi, linkedForm_of_none ts i hprev hnext]
    rfl

/-- C5 witness: a three-member group (shared phase and activity) plus an
unrelated singleton: the middle member points back to T0001 and forward
to T0003 with dependency type FS, the first member keeps no linking
predecessor, the last keeps no linking successor, and the singleton is
untouched apart from its identifier. -/
theorem claim_C5_witness :
    (((add_task_identifiers
        [{ phase_name := some "P", activity_name := some "act" },
         { phase_name := some "P", activity_name := some "act" },
         { phase_name := some "P", activity_name := some "act" },
         { phase_name := some "Q" }] "detailed").getD 1 default).predecessor =
      some (formatT 1) ∧
     ((add_task_identifiers
        [{ phase_name := some "P", activity_name := some "act" },
         { phase_name := some "P", activity_name := some "act" },
         { phase_name := some "P", activity_name := some "act" },
         { phase_name := some "Q" }] "detailed").getD 1 default).dependency_type =
      some "FS" ∧
     ((add_task_identifiers
        [{ phase_name := some "P", activity_name := some "act" },
         { phase_name := some "P", activity_name := some "act" },
         { phase_name := some "P", activity_name := some "act" },
         { phase_name := some "Q" }] "detailed").getD 1 default).successor =
      some (formatT 3)) ∧
    (add_task_identifiers
        [{ phase_name := some "P", activity_name := some "act" },
         { phase_name := some "P", activity_name := some "act" },
         { phase_name := some "P", activity_name := some "act" },
         { phase_name := some "Q" }] "detailed").getD 3 default =
      { ({ phase_name := some "Q" } : PlanTask) with task_id := some (formatT 4) } :=
  ⟨⟨((claim_C5 [{ phase_name := some "P", activity_name := some "act" },
       { phase_name := some "P", activity_name := some "act" },
       { phase_name := some "P", activity_name := some "act" },
       { phase_name := some "Q" }] "x").2.1 0 1 (by decide) (by decide) (by decide)
       (by decide)).1,
    ((claim_C5 [{ phase_name := some "P", activity_name := some "act" },
       { phase_name := some "P", activity_name := some "act" },
       { phase_name := some "P", activity_name := some "act" },
       { phase_name := some "Q" }] "x").2.1 1 2 (by decide) (by decide) (by decide)
       (by decide)).2.1,
    ((claim_C5 [{ phase_name := some "P", activity_name := some "act" },
       { phase_name := some "P", activity_name := some "act" },
       { phase_name := some "P", activity_name := some "act" },
       { phase_name := some "Q" }] "x").2.1 1 2 (by decide) (by decide) (by decide)
       (by decide)).2.2⟩,
   (claim_C5 [{ phase_name := some "P", activity_name := some "act" },
      { phase_name := some "P", activity_name := some "act" },
      { phase_name := some "P", activity_name := some "act" },
      { phase_name := some "Q" }] "x").2.2.2.2 3 (by decide) (by decide)⟩

/-- C10: The dependency-grouping key is the single string
`phase_name + "|" + activity_name` with absent fields read as the empty
string; any two positions whose concatenated key strings coincide are
grouped and, when adjacent in their group, linked — including pairs with
distinct (phase_name, activity_name) whose concatenations collide, such
as phase "A|B" with empty activity versus phase "A" with activity
"B|". -/
theorem claim_C10 (ts : List PlanTask) :
    (∀ i, gkD ts i =
      (ts.getD i default).phase_name.getD "" ++ "|" ++
        (ts.getD i default).activity_name.getD "") ∧
    (∀ i j, i < j → j < ts.length →
      (ts.getD i default).phase_name.getD "" ++ "|" ++
          (ts.getD i default).activity_name.getD "" =
        (ts.getD j default).phase_name.getD "" ++ "|" ++
          (ts.getD j default).activity_name.getD "" →
      (∀ k, k < j → i < k → gkD ts k ≠ gkD ts j) →
      ((add_task_identifiers ts "detailed").getD j default).predecessor =
          some (formatT (i + 1)) ∧
        ((add_task_identifiers ts "detailed").getD i default).successor =
          some (formatT (j + 1))) ∧
    (((add_task_identifiers
        [{ phase_name := some "A|B", activity_name := some "" },
         { phase_name := some "A", activity_name := some "B|" }] "detailed").getD 1
          default).predecessor = some "T0001" ∧
     ((add_task_identifiers
        [{ phase_name := some "A|B", activity_name := some "" },
         { phase_name := some "A", activity_name := some "B|" }] "detailed").getD 0
          default).successor = some "T0002") := by
  refine ⟨?_, ?_, by decide, by decide⟩
  · intro i
    rfl
  · intro i j hij hj hconcat hbet
    have hkey : gkD ts i = gkD ts j := hconcat
    have hi : i < ts.length := lt_trans hij hj
    have hprev : prevSame ts j = some i :=
      prevSame_some ts j i hij hkey (fun m h1 h2 => hbet m h2 h1)
    have hnext : nextSame ts i = some j :=
      nextSame_some ts i j hij hj hkey.symm
        (fun m h1 h2 => by rw [hkey]; exact hbet m h2 h1)
    constructor
    · rw [add_task_identifiers_detailed_getD ts j hj, linkedForm_predecessor, hprev]
    · rw [add_task_identifiers_detailed_getD ts i hi, linkedForm_successor, hnext]

/-- C10 witness: three tasks of phase "P" with no activity_name fall into
one group and the second is chained after the first. -/
theorem claim_C10_witness :
    ((add_task_identifiers
        [{ phase_name := some "P" }, { phase_name := some "P" },
         { phase_name := some "P" }] "detailed").getD 1 default).predecessor =
      some (formatT 1) ∧
    ((add_task_identifiers
        [{ phase_name := some "P" }, { phase_name := some "P" },
         { phase_name := some "P" }] "detailed").getD 0 default).successor =
      some (formatT 2) :=
  (claim_C10 [{ phase_name := some "P" }, { phase_name := some "P" },
    { phase_name := some "P" }]).2.1 0 1 (by decide) (by decide) (by decide) (by decide)

/-- C4 counterexample: the claim that two runs of aggregate on a fixed
mapping and mode produce byte-identical output up to the timestamp field
fails in detailed mode, because the "Immediate" start preference is
resolved against the current date: aggregating the same mapping on day 0
(a Thursday) and on day 4 (a Monday) gives different task dates even
after erasing `generated_at`. -/
theorem claim_C4_counterexample :
    ((aggregator_node [("p", { package_name := some "P", tasks := [{}] })]
        { start_date := some "Immediate" } "detailed" 0 5).1).map stripTime ≠
      ((aggregator_node [("p", { package_name := some "P", tasks := [{}] })]
        { start_date := some "Immediate" } "detailed" 4 5).1).map stripTime := by
  decide

/-- C4 (amended): aggregation is deterministic given the current date:
the flattened sequence is the concatenation of the packages' blocks in
ascending sorted key order (and that order is a sorted permutation of
the mapping's keys, never the completion order: permuted mappings give
the identical plan); for a fixed current date the output depends on the
wall clock only through the `generated_at` timestamp, and in high-level
mode not even the current date matters. -/
theorem claim_C4 (w₁ w₂ : List (String × WPackage)) (responses : Responses)
    (pt : String) (today n₁ n₂ : Int)
    (hperm : List.Perm w₁ w₂) (hnd : (w₁.map Prod.fst).Nodup) :
    ((sortedKeys w₁).Sorted strLe ∧ List.Perm (sortedKeys w₁) (w₁.map Prod.fst)) ∧
    flattenPackages w₁ = ((sortedKeys w₁).map (fun k => packageBlock k w₁)).flatten ∧
    (aggregator_node w₁ responses pt today n₁).1 =
      (aggregator_node w₂ responses pt today n₁).1 ∧
    ((aggregator_node w₁ responses pt today n₁).1).map stripTime =
      ((aggregator_node w₁ responses pt today n₂).1).map stripTime ∧
    (pt ≠ "detailed" → ∀ t₁ t₂ : Int,
      (aggregator_node w₁ responses pt t₁ n₁).1 =
        (aggregator_node w₁ responses pt t₂ n₁).1) := by
  refine ⟨⟨List.sorted_insertionSort strLe _, List.perm_insertionSort strLe _⟩,
    flattenPackages_eq w₁, aggregator_plan_perm hperm hnd responses pt today n₁,
    aggregator_plan_now_independent w₁ responses pt today n₁ n₂, ?_⟩
  intro hpt t₁ t₂
  exact aggregator_plan_today_independent_high_level w₁ responses pt hpt t₁ t₂ n₁

/-- C4 witness: a two-package mapping and its reversed (completion-order
permuted) copy aggregate to the same plan, and plans at two different
timestamps agree after erasing `generated_at`. -/
theorem claim_C4_witness :
    (sortedKeys [("b", { package_name := some "B", tasks := [{}] }),
      ("a", { package_name := some "A", tasks := [{}] })]).Sorted strLe ∧
    (aggregator_node [("b", { package_name := some "B", tasks := [{}] }),
        ("a", { package_name := some "A", tasks := [{}] })] {} "high_level" 0 7).1 =
      (aggregator_node [("a", { package_name := some "A", tasks := [{}] }),
        ("b", { package_name := some "B", tasks := [{}] })] {} "high_level" 0 7).1 ∧
    ((aggregator_node [("b", { package_name := some "B", tasks := [{}] }),
        ("a", { package_name := some "A", tasks := [{}] })] {} "high_level" 0 7).1).map
        stripTime =
      ((aggregator_node [("b", { package_name := some "B", tasks := [{}] }),
        ("a", { package_name := some "A", tasks := [{}] })] {} "high_level" 0 9).1).map
        stripTime :=
  ⟨(claim_C4 [("b", { package_name := some "B", tasks := [{}] }),
      ("a", { package_name := some "A", tasks := [{}] })]
      [("a", { package_name := some "A", tasks := [{}] }),
       ("b", { package_name := some "B", tasks := [{}] })] {} "high_level" 0 7 9
      (List.Perm.swap _ _ _) (by decide)).1.1,
   (claim_C4 [("b", { package_name := some "B", tasks := [{}] }),
      ("a", { package_name := some "A", tasks := [{}] })]
      [("a", { package_name := some "A", tasks := [{}] }),
       ("b", { package_name := some "B", tasks := [{}] })] {} "high_level" 0 7 9
      (List.Perm.swap _ _ _) (by decide)).2.2.1,
   (claim_C4 [("b", { package_name := some "B", tasks := [{}] }),
      ("a", { package_name := some "A", tasks := [{}] })]
      [("a", { package_name := some "A", tasks := [{}] }),
       ("b", { package_name := some "B", tasks := [{}] })] {} "high_level" 0 7 9
      (List.Perm.swap _ _ _) (by decide)).2.2.2.1⟩

/-- C9 counterexample: the dispatcher's result mapping is not left
unchanged by aggregation: after aggregating a single package whose task
lacks an identifier, the stored mapping's task carries the written
`task_id`, so the post-state differs from the pre-state. -/
theorem claim_C9_counterexample :
    (aggregator_node [("p1", { package_name := some "P", tasks := [{}] })]
        {} "high_level" 0 0).2 ≠
      [("p1", { package_name := some "P", tasks := [{}] })] := by
  decide

/-- C9 (amended): aggregation mutates the dispatched package results in
place: afterwards the mapping holds the same keys in the same order and
every package keeps its name, stored task count and task-list length,
but the task dictionaries are the aggregated plan's tasks — concatenating
the packages' post-run task lists in sorted key order yields exactly the
plan's task list.  The aggregation itself remains a deterministic
function of its inputs. -/
theorem claim_C9 (w : List (String × WPackage)) (responses : Responses)
    (pt : String) (today now : Int)
    (hne : w ≠ []) (hnd : (w.map Prod.fst).Nodup) :
    ∃ plan : AggregatedPlan,
      (aggregator_node w responses pt today now).1 = some plan ∧
      ((aggregator_node w responses pt today now).2).map Prod.fst = w.map Prod.fst ∧
      (∀ k p, lookupKey k w = some p →
        ∃ q, lookupKey k ((aggregator_node w responses pt today now).2) = some q ∧
          q.package_name = p.package_name ∧ q.task_count = p.task_count ∧
          q.tasks.length = p.tasks.length) ∧
      ((sortedKeys w).map (fun k =>
        ((lookupKey k ((aggregator_node w responses pt today now).2)).map
          WPackage.tasks).getD [])).flatten = plan.tasks := by
  unfold aggregator_node
  rw [if_neg hne]
  have hlen : (aggTasks w responses pt today).length =
      ((sortedKeys w).map (fun k => (packageBlock k w).length)).sum := by
    rw [aggTasks_length_eq_flatten, flattenPackages_length_sorted]
  refine ⟨_, rfl, postOutputs_fst w _, ?_, ?_⟩
  · intro k p hp
    exact postOutputs_entry w _ hnd hlen k p hp
  · exact postOutputs_flatten w _ hnd hlen

/-- C9 witness: the amended statement at a concrete two-package
mapping. -/
theorem claim_C9_witness :
    ([("b", { package_name := some "B", tasks := [{ task_name := some "t1" }] }),
      ("a", { package_name := some "A", tasks := [{}, {}] })] :
        List (String × WPackage)) ≠ [] ∧
    ∃ plan : AggregatedPlan,
      (aggregator_node
        [("b", { package_name := some "B", tasks := [{ task_name := some "t1" }] }),
         ("a", { package_name := some "A", tasks := [{}, {}] })] {} "detailed" 0 0).1 =
        some plan ∧
      ((aggregator_node
        [("b", { package_name := some "B", tasks := [{ task_name := some "t1" }] }),
         ("a", { package_name := some "A", tasks := [{}, {}] })] {} "detailed" 0 0).2).map
          Prod.fst =
        ([("b", { package_name := some "B", tasks := [{ task_name := some "t1" }] }),
          ("a", { package_name := some "A", tasks := [{}, {}] })] :
            List (String × WPackage)).map Prod.fst ∧
      (∀ k p, lookupKey k
          ([("b", { package_name := some "B", tasks := [{ task_name := some "t1" }] }),
            ("a", { package_name := some "A", tasks := [{}, {}] })] :
              List (String × WPackage)) = some p →
        ∃ q, lookupKey k ((aggregator_node
            [("b", { package_name := some "B", tasks := [{ task_name := some "t1" }] }),
             ("a", { package_name := some "A", tasks := [{}, {}] })] {} "detailed" 0 0).2) =
            some q ∧
          q.package_name = p.package_name ∧ q.task_count = p.task_count ∧
          q.tasks.length = p.tasks.length) ∧
      ((sortedKeys
          [("b", { package_name := some "B", tasks := [{ task_name := some "t1" }] }),
           ("a", { package_name := some "A", tasks := [{}, {}] })]).map (fun k =>
        ((lookupKey k ((aggregator_node
            [("b", { package_name := some "B", tasks := [{ task_name := some "t1" }] }),
             ("a", { package_name := some "A", tasks := [{}, {}] })] {} "detailed" 0 0).2)).map
          WPackage.tasks).getD [])).flatten = plan.tasks :=
  ⟨by decide,
    claim_C9
      [("b", { package_name := some "B", tasks := [{ task_name := some "t1" }] }),
       ("a", { package_name := some "A", tasks := [{}, {}] })] {} "detailed" 0 0
      (by decide) (by decide)⟩

theorem tryBlocks_mem : ∀ (bs : List (List Char)) (j : JValue), tryBlocks bs = some j →
    ∃ b ∈ bs, json_loads (String.mk (pyStrip b)) = some j := by
  intro bs
  induction bs with
  | nil => intro j h; cases h
  | cons b rest ih =>
    intro j h
    cases hl : json_loads (String.mk (pyStrip b)) with
    | some j' =>
      have h2 : tryBlocks (b :: rest) = some j' := by
        show (match json_loads (String.mk (pyStrip b)) with
          | some j => some j | none => tryBlocks rest) = some j'
        rw [hl]
      rw [h2] at h
      injection h with h
      exact ⟨b, List.mem_cons_self _ _, by rw [hl, h]⟩
    | none =>
      have h2 : tryBlocks (b :: rest) = tryBlocks rest := by
        show (match json_loads (String.mk (pyStrip b)) with
          | some j => some j | none => tryBlocks rest) = _
        rw [hl]
      rw [h2] at h
      obtain ⟨b', hb', h'⟩ := ih j h
      exact ⟨b', List.mem_cons_of_mem _ hb', h'⟩

theorem extract_eq_of_tryBlocks (s : String) (j : JValue)
    (h : tryBlocks (findFences s.data.length s.data) = some j) :
    extract_json_from_response s = j := by
  unfold extract_json_from_response
  rw [h]

theorem extract_eq_of_braceSpan (s sub : String) (j : JValue)
    (hb : tryBlocks (findFences s.data.length s.data) = none)
    (hs : braceSpan s = some sub) (hj : json_loads sub = some j) :
    extract_json_from_response s = j := by
  unfold extract_json_from_response
  rw [hb, hs]
  show (match json_loads sub with | some j => j | none => emptyTasksObj) = j
  rw [hj]

theorem extract_eq_default_noBrace (s : String)
    (hb : tryBlocks (findFences s.data.length s.data) = none)
    (hs : braceSpan s = none) :
    extract_json_from_response s = emptyTasksObj := by
  unfold extract_json_from_response
  rw [hb, hs]

theorem extract_eq_default_badBrace (s sub : String)
    (hb : tryBlocks (findFences s.data.length s.data) = none)
    (hs : braceSpan s = some sub) (hj : json_loads sub = none) :
    extract_json_from_response s = emptyTasksObj := by
  unfold extract_json_from_response
  rw [hb, hs]
  show (match json_loads sub with | some j => j | none => emptyTasksObj) = emptyTasksObj
  rw [hj]

theorem extract_orch_eq_of_tryBlocks (s : String) (j : JValue)
    (h : tryBlocks (findFences s.data.length s.data) = some j) :
    extract_json_from_response_orchestrator s = j := by
  unfold extract_json_from_response_orchestrator
  rw [h]

theorem extract_orch_eq_of_braceSpan (s sub : String) (j : JValue)
    (hb : tryBlocks (findFences s.data.length s.data) = none)
    (hs : braceSpan s = some sub) (hj : json_loads sub = some j) :
    extract_json_from_response_orchestrator s = j := by
  unfold extract_json_from_response_orchestrator
  rw [hb, hs]
  show (match json_loads sub with | some j => j | none => JValue.obj []) = j
  rw [hj]

theorem extract_orch_eq_default_noBrace (s : String)
    (hb : tryBlocks (findFences s.data.length s.data) = none)
    (hs : braceSpan s = none) :
    extract_json_from_response_orchestrator s = JValue.obj [] := by
  unfold extract_json_from_response_orchestrator
  rw [hb, hs]

theorem extract_orch_eq_default_badBrace (s sub : String)
    (hb : tryBlocks (findFences s.data.length s.data) = none)
    (hs : braceSpan s = some sub) (hj : json_loads sub = none) :
    extract_json_from_response_orchestrator s = JValue.obj [] := by
  unfold extract_json_from_response_orchestrator
  rw [hb, hs]
  show (match json_loads sub with | some j => j | none => JValue.obj []) = JValue.obj []
  rw [hj]

/-- C8: Both response extractors are total: for every input string the
result is either the parse of a fenced code block, or the parse of the
span from the first `{` to the last `}`, or the empty structure (for the
workers' extractor `{"tasks": []}`, an empty task list); no other outcome
— in particular no exception — is possible.  A fenced JSON payload
embedded in prose parses exactly as the bare payload does, and a response
whose candidate spans are all invalid yields the empty structure. -/
theorem claim_C8 (s : String) :
    ((∃ b ∈ findFences s.data.length s.data,
        json_loads (String.mk (pyStrip b)) = some (extract_json_from_response s)) ∨
      (∃ sub, braceSpan s = some sub ∧
        json_loads sub = some (extract_json_from_response s)) ∨
      extract_json_from_response s = emptyTasksObj) ∧
    ((∃ b ∈ findFences s.data.length s.data,
        json_loads (String.mk (pyStrip b)) =
          some (extract_json_from_response_orchestrator s)) ∨
      (∃ sub, braceSpan s = some sub ∧
        json_loads sub = some (extract_json_from_response_orchestrator s)) ∨
      extract_json_from_response_orchestrator s = JValue.obj []) ∧
    extract_json_from_response
        "Here is the plan:\n```json\n\x7b\"tasks\": []\x7d\n```\nDone." =
      extract_json_from_response "\x7b\"tasks\": []\x7d" ∧
    extract_json_from_response
        "```json\n\x7b\"tasks\": [broken\n``` and \x7balso broken" = emptyTasksObj := by
  refine ⟨?_, ?_, rfl, rfl⟩
  · cases htb : tryBlocks (findFences s.data.length s.data) with
    | some j =>
      left
      rw [extract_eq_of_tryBlocks s j htb]
      exact tryBlocks_mem _ j htb
    | none =>
      cases hbs : braceSpan s with
      | some sub =>
        cases hj : json_loads sub with
        | some j =>
          right; left
          exact ⟨sub, rfl, by rw [extract_eq_of_braceSpan s sub j htb hbs hj, hj]⟩
        | none =>
          right; right
          exact extract_eq_default_badBrace s sub htb hbs hj
      | none =>
        right; right
        exact extract_eq_default_noBrace s htb hbs
  · cases htb : tryBlocks (findFences s.data.length s.data) with
    | some j =>
      left
      rw [extract_orch_eq_of_tryBlocks s j htb]
      exact tryBlocks_mem _ j htb
    | none =>
      cases hbs : braceSpan s with
      | some sub =>
        cases hj : json_loads sub with
        | some j =>
          right; left
          exact ⟨sub, rfl, by rw [extract_orch_eq_of_braceSpan s sub j htb hbs hj, hj]⟩
        | none =>
          right; right
          exact extract_orch_eq_default_badBrace s sub htb hbs hj
      | none =>
        right; right
        exact extract_orch_eq_default_noBrace s htb hbs

/-! ### Claim C3: worker dispatch and isolation -/

theorem packagesOfOutputsE_ok_fst : ∀ (outs : List (String × WOutput))
    (w : List (String × WPackage)), packagesOfOutputsE outs = .ok w →
    w.map Prod.fst = outs.map Prod.fst ∧ w.length = outs.length := by
  intro outs
  induction outs with
  | nil =>
    intro w h
    injection h with h
    subst h
    exact ⟨rfl, rfl⟩
  | cons kw rest ih =>
    intro w h
    unfold packagesOfOutputsE at h
    cases h1 : packageOfOutputE kw.2 with
    | error e => rw [h1] at h; cases h
    | ok p =>
      rw [h1] at h
      cases h2 : packagesOfOutputsE rest with
      | error e => rw [h2] at h; cases h
      | ok ps =>
        rw [h2] at h
        injection h with h
        subst h
        obtain ⟨hf, hl⟩ := ih ps h2
        refine ⟨?_, ?_⟩
        · rw [List.map_cons, List.map_cons, hf]
        · rw [List.length_cons, List.length_cons, hl]

/-- Counterexample to the original C3: a package whose generation call
returns unparseable content does NOT yield `success = false`; the
extractor's `\x7b"tasks": []\x7d` default makes the worker report
`success = true` with an empty task list.  Only a raised exception
produces `success = false`. -/
theorem claim_C3_counterexample :
    (process_single_worker (fun _ => Except.ok "no structured data here") "w1"
        { package_name := some "Pkg", prompt := some "p" }).success = true ∧
    (process_single_worker (fun _ => Except.ok "no structured data here") "w1"
        { package_name := some "Pkg", prompt := some "p" }).tasks = JValue.arr [] :=
  ⟨rfl, rfl⟩

/-- C3 (amended): for every completion order of the dispatched packages
(with distinct keys), the dispatcher returns exactly one result per
package key, stored under that key; a package whose generation call
raises yields `success = false` with the error truncated to 50
characters and an empty task list, while a package whose call returns
unparseable content yields `success = TRUE` with an empty task list (the
extractor's default, not a failure record); each package's result is a
function of its own key and info only, so no package affects another.
Aggregation then proceeds without halting — producing a plan whose task
total is the sum over all packages — provided every stored result's
`"tasks"` value converts, i.e. iterating it yields only task dicts; that
proviso is not vacuous: a worker reply of `\x7b"tasks": "ab"\x7d` is
stored with `success = true`, and the aggregator's loop then raises
`AttributeError` on its first character, halting the pipeline (final
conjuncts). -/
theorem claim_C3 (oracle : String → Except String String)
    (completion : List (String × WorkerInfo))
    (hnd : (completion.map Prod.fst).Nodup) :
    (category_worker_node oracle completion).length = completion.length ∧
    (∀ k wi, (k, wi) ∈ completion →
      lookupKey k (category_worker_node oracle completion) =
        some (storeOutput (process_single_worker oracle k wi))) ∧
    (∀ k wi e, oracle (wi.prompt.getD "") = Except.error e →
      process_single_worker oracle k wi =
        { worker_key := k, package_name := wi.package_name.getD k,
          tasks := JValue.arr [], task_count := 0, success := false,
          error := some (String.mk (e.data.take 50)) }) ∧
    (∀ k wi response, oracle (wi.prompt.getD "") = Except.ok response →
      extract_json_from_response response = emptyTasksObj →
      process_single_worker oracle k wi =
        { worker_key := k, package_name := wi.package_name.getD k,
          tasks := JValue.arr [], task_count := 0, success := true,
          error := none }) ∧
    (∀ (responses : Responses) (pt : String) (today now : Int)
      (w : List (String × WPackage)),
      completion ≠ [] →
      packagesOfOutputsE (category_worker_node oracle completion) = .ok w →
      ∃ plan,
        (aggregator_node w responses pt today now).1 = some plan ∧
        plan.tasks.length = (w.map (fun kp => kp.2.tasks.length)).sum) ∧
    (process_single_worker (fun _ => Except.ok "\x7b\"tasks\": \"ab\"\x7d") "wx"
        { package_name := some "PX", prompt := some "px" }).success = true ∧
    packageOfOutputE (storeOutput
        (process_single_worker (fun _ => Except.ok "\x7b\"tasks\": \"ab\"\x7d") "wx"
          { package_name := some "PX", prompt := some "px" })) =
      .error "AttributeError: object has no attribute get" := by
  refine ⟨category_worker_node_length oracle completion, ?_, ?_, ?_, ?_, rfl, rfl⟩
  · intro k wi hm
    exact category_worker_node_lookup oracle completion k wi hnd hm
  · intro k wi e h
    exact process_worker_raise oracle k wi e h
  · intro k wi response h he
    exact process_worker_unparseable oracle k wi response h he
  · intro responses pt today now w hne hw
    obtain ⟨hfst, hlen⟩ :=
      packagesOfOutputsE_ok_fst (category_worker_node oracle completion) w hw
    have hkeys : w.map Prod.fst = completion.map Prod.fst := by
      rw [hfst, category_worker_node_eq, List.map_map]
      rfl
    have hwlen : w.length = completion.length := by
      rw [hlen, category_worker_node_length]
    have hwne : w ≠ [] := by
      intro he
      apply hne
      have h0 : completion.length = 0 := by rw [← hwlen, he]; rfl
      exact List.eq_nil_of_length_eq_zero h0
    have hndw : (w.map Prod.fst).Nodup := by rw [hkeys]; exact hnd
    unfold aggregator_node
    rw [if_neg hwne]
    exact ⟨_, rfl, aggTasks_length _ responses pt today hndw⟩

def claim3Oracle : String → Except String String := fun p =>
  if p = "p3" then
    Except.error "Connection timeout to the model endpoint while invoking worker three"
  else
    Except.ok "```json\n\x7b\"tasks\": [\x7b\"task_name\": \"dig\"\x7d]\x7d\n```"

def claim3Completion : List (String × WorkerInfo) :=
  [("w1", { package_name := some "P1", prompt := some "p1" }),
   ("w2", { package_name := some "P2", prompt := some "p2" }),
   ("w3", { package_name := some "P3", prompt := some "p3" }),
   ("w4", { package_name := some "P4", prompt := some "p4" }),
   ("w5", { package_name := some "P5", prompt := some "p5" })]

/-- Witness for C3 at a concrete input: five packages, the third of
whose generation calls raises. -/
theorem claim_C3_witness :
    (claim3Completion.map Prod.fst).Nodup ∧
    ((category_worker_node claim3Oracle claim3Completion).length =
        claim3Completion.length ∧
      (∀ k wi, (k, wi) ∈ claim3Completion →
        lookupKey k (category_worker_node claim3Oracle claim3Completion) =
          some (storeOutput (process_single_worker claim3Oracle k wi))) ∧
      (∀ k wi e, claim3Oracle (wi.prompt.getD "") = Except.error e →
        process_single_worker claim3Oracle k wi =
          { worker_key := k, package_name := wi.package_name.getD k,
            tasks := JValue.arr [], task_count := 0, success := false,
            error := some (String.mk (e.data.take 50)) }) ∧
      (∀ k wi response, claim3Oracle (wi.prompt.getD "") = Except.ok response →
        extract_json_from_response response = emptyTasksObj →
        process_single_worker claim3Oracle k wi =
          { worker_key := k, package_name := wi.package_name.getD k,
            tasks := JValue.arr [], task_count := 0, success := true,
            error := none }) ∧
      (∀ (responses : Responses) (pt : String) (today now : Int)
        (w : List (String × WPackage)),
        claim3Completion ≠ [] →
        packagesOfOutputsE (category_worker_node claim3Oracle claim3Completion) =
          .ok w →
        ∃ plan,
          (aggregator_node w responses pt today now).1 = some plan ∧
          plan.tasks.length = (w.map (fun kp => kp.2.tasks.length)).sum) ∧
      (process_single_worker (fun _ => Except.ok "\x7b\"tasks\": \"ab\"\x7d") "wx"
          { package_name := some "PX", prompt := some "px" }).success = true ∧
      packageOfOutputE (storeOutput
          (process_single_worker (fun _ => Except.ok "\x7b\"tasks\": \"ab\"\x7d") "wx"
            { package_name := some "PX", prompt := some "px" })) =
        .error "AttributeError: object has no attribute get") :=
  ⟨by decide, claim_C3 claim3Oracle claim3Completion (by decide)⟩
